import Mathlib

/-!
ObservableVector: a shallow embedding of `src/main.cpp`

`ObservableVector<T>` wraps a `std::vector<T>` (`data_`) and a
`std::vector<CollectionObserver*>` (`observers`).  Every mutating member first
changes `data_` and then walks `observers` front to back, calling
`CollectionChanged` on every entry that is not the null pointer.

Modelling decisions.

* `std::vector<T>` is a `List T`; `push_back` appends at the end, `pop_back`
  drops the last element, `clear` gives the empty list, `size()` is the length.
  `size_t` values are natural numbers: the only subtraction in the source,
  `data_.size() - 1` in `PushBack`, is evaluated after `push_back`, when
  `size()` is at least one, so it never wraps.
* An observer pointer is its address (a natural number); the null pointer is
  address `0`.  Observers are compared by address, as `std::remove` does.
* `CollectionChanged` is a pure virtual member: the container only decides
  *who* is called, *in which order*, and *with which argument*.  A call is
  therefore recorded as a `Delivery` (receiver, argument), and each operation
  returns, next to the new state, the list of deliveries it made, oldest first.
  The callbacks themselves are taken not to touch the container while they run
  (this is what the only observer of the source, `Observer`, does: it prints).
  The one exception is `dispatchWalk`, which writes the loop out over the
  storage of `observers` (slots, iterators as slot positions, `std::remove` as
  its loop) to follow an observer that unregisters itself from its callback.
* `operator=` compares `this` with `&other`, so the two assignment operators
  are defined over a store of objects indexed by address.
* A call of `PopBack` on an empty sequence is outside the list model: `PopBackLib`
  follows it on the `begin()`/`end()` positions of `data_`, in `size_t`
  arithmetic, for a library with and without precondition checks.
* Allocators are not modelled.
-/

namespace ObservableVectorModel

/-- The `enum class CollectionAction` of the source. -/
inductive CollectionAction where
  | ADD
  | REMOVE
  | CLEAR
  | ASSIGN
  deriving DecidableEq, Repr

/-- The `struct CollectionChangeNotification` of the source. -/
structure CollectionChangeNotification where
  action : CollectionAction
  item_indexes : List Nat
  deriving DecidableEq, Repr

/-- A `CollectionObserver*`, identified by its address. -/
abbrev ObserverPtr := Nat

/-- The null observer pointer. -/
def nullptr : ObserverPtr := 0

/-- One call `observer->CollectionChanged(notification)`. -/
structure Delivery where
  observer : ObserverPtr
  notification : CollectionChangeNotification
  deriving DecidableEq, Repr

/-- The two data members of `ObservableVector<T>`. -/
structure ObservableVector (T : Type) where
  data_ : List T
  observers : List ObserverPtr

/-- The loop shared by all mutating members:
`for (auto* observer : observers) if (observer) observer->CollectionChanged(n);` -/
def dispatch (observers : List ObserverPtr) (n : CollectionChangeNotification) :
    List Delivery :=
  match observers with
  | [] => []
  | observer :: rest =>
    if observer ≠ nullptr then
      { observer := observer, notification := n } :: dispatch rest n
    else
      dispatch rest n

/-- The notifications that observer `o` was handed, in the order it got them. -/
def received (o : ObserverPtr) (tr : List Delivery) : List CollectionChangeNotification :=
  (tr.filter (fun d => d.observer == o)).map (fun d => d.notification)

/-- The receivers of a list of deliveries, in call order. -/
def recipients (tr : List Delivery) : List ObserverPtr :=
  tr.map (fun d => d.observer)

namespace ObservableVector

variable {T : Type}

/-- `size()`: `return data_.size();` -/
def size (self : ObservableVector T) : Nat :=
  self.data_.length

/-- `empty()`: `return data_.empty();` -/
def empty (self : ObservableVector T) : Bool :=
  self.data_.isEmpty

/-- `PushBack(value)`: `data_.push_back(value)`, then every non-null observer is
called with `{ADD, {data_.size() - 1}}`. -/
def PushBack (self : ObservableVector T) (value : T) :
    ObservableVector T × List Delivery :=
  let self1 : ObservableVector T := { self with data_ := self.data_ ++ [value] }
  (self1, dispatch self1.observers
    { action := CollectionAction.ADD, item_indexes := [self1.data_.length - 1] })

/-- `PopBack()`: `data_.pop_back()`, then every non-null observer is called with
`{REMOVE, {data_.size()}}`.  This is the member on a non-empty `data_`, the
precondition of `pop_back`.  The source has no emptiness test, and C++ leaves
`pop_back` on an empty `std::vector` undefined: what the library then does (the
program is terminated, or `size()` wraps around) cannot be told on a list, so
that call is embedded on the bounds of the vector, by `PopBackLib`.  The value
this definition has on an empty list, where `dropLast` keeps the list empty, is
not what the program does. -/
def PopBack (self : ObservableVector T) : ObservableVector T × List Delivery :=
  let self1 : ObservableVector T := { self with data_ := self.data_.dropLast }
  (self1, dispatch self1.observers
    { action := CollectionAction.REMOVE, item_indexes := [self1.data_.length] })

/-- `Clear()`: `data_.clear()`, then every non-null observer is called with
`{CLEAR, {}}`. -/
def Clear (self : ObservableVector T) : ObservableVector T × List Delivery :=
  let self1 : ObservableVector T := { self with data_ := [] }
  (self1, dispatch self1.observers
    { action := CollectionAction.CLEAR, item_indexes := [] })

/-- `AddObserver(o)`: `observers.push_back(o);` -/
def AddObserver (self : ObservableVector T) (o : ObserverPtr) : ObservableVector T :=
  { self with observers := self.observers ++ [o] }

/-- `RemoveObserver(o)`:
`observers.erase(std::remove(begin(observers), end(observers), o), end(observers));`
The erase-remove idiom keeps, in their order, the entries that do not compare
equal to `o`. -/
def RemoveObserver (self : ObservableVector T) (o : ObserverPtr) : ObservableVector T :=
  { self with observers := self.observers.filter (fun p => p != o) }

end ObservableVector

/-- The address of an `ObservableVector` object. -/
abbrev Addr := Nat

/-- The objects of the program, by address. -/
abbrev Heap (T : Type) := Addr → ObservableVector T

/-- Copy assignment `*this = other` with `this` at `thisAddr`, `other` at `otherAddr`:
`if (this != &other) { data_ = other.data_; <dispatch {ASSIGN, {}}> } return *this;` -/
def operatorAssignCopy {T : Type} (thisAddr otherAddr : Addr) (h : Heap T) :
    Heap T × List Delivery :=
  if thisAddr ≠ otherAddr then
    let self1 : ObservableVector T := { h thisAddr with data_ := (h otherAddr).data_ }
    (Function.update h thisAddr self1,
      dispatch self1.observers { action := CollectionAction.ASSIGN, item_indexes := [] })
  else
    (h, [])

/-- Move assignment `*this = std::move(other)`:
`if (this != &other) { data_ = std::move(other.data_); <dispatch {ASSIGN, {}}> } return *this;`
C++ leaves the moved-from vector in a valid but unspecified state; `residue` is
whatever `other.data_` holds afterwards (the empty list with the usual
implementations). -/
def operatorAssignMove {T : Type} (thisAddr otherAddr : Addr) (residue : List T)
    (h : Heap T) : Heap T × List Delivery :=
  if thisAddr ≠ otherAddr then
    let self1 : ObservableVector T := { h thisAddr with data_ := (h otherAddr).data_ }
    let other1 : ObservableVector T := { h otherAddr with data_ := residue }
    (Function.update (Function.update h otherAddr other1) thisAddr self1,
      dispatch self1.observers { action := CollectionAction.ASSIGN, item_indexes := [] })
  else
    (h, [])

/-- A call of a public member of the object at `thisAddr`. -/
inductive Call (T : Type) where
  | pushBack (thisAddr : Addr) (value : T)
  | popBack (thisAddr : Addr)
  | clear (thisAddr : Addr)
  | assignCopy (thisAddr otherAddr : Addr)
  | assignMove (thisAddr otherAddr : Addr) (residue : List T)
  | size (thisAddr : Addr)
  | empty (thisAddr : Addr)
  | addObserver (thisAddr : Addr) (o : ObserverPtr)
  | removeObserver (thisAddr : Addr) (o : ObserverPtr)

/-- The object a call is made on. -/
def Call.target {T : Type} : Call T → Addr
  | Call.pushBack a _ => a
  | Call.popBack a => a
  | Call.clear a => a
  | Call.assignCopy a _ => a
  | Call.assignMove a _ _ => a
  | Call.size a => a
  | Call.empty a => a
  | Call.addObserver a _ => a
  | Call.removeObserver a _ => a

/-- One call executed on the store: the new store and the deliveries made. -/
def step {T : Type} (c : Call T) (h : Heap T) : Heap T × List Delivery :=
  match c with
  | Call.pushBack a v => (Function.update h a ((h a).PushBack v).1, ((h a).PushBack v).2)
  | Call.popBack a => (Function.update h a (h a).PopBack.1, (h a).PopBack.2)
  | Call.clear a => (Function.update h a (h a).Clear.1, (h a).Clear.2)
  | Call.assignCopy a b => operatorAssignCopy a b h
  | Call.assignMove a b residue => operatorAssignMove a b residue h
  | Call.size _ => (h, [])
  | Call.empty _ => (h, [])
  | Call.addObserver a o => (Function.update h a ((h a).AddObserver o), [])
  | Call.removeObserver a o => (Function.update h a ((h a).RemoveObserver o), [])

/-- A sequence of calls executed in program order; the deliveries are collected
in the order they were made. -/
def run {T : Type} (cs : List (Call T)) (h : Heap T) : Heap T × List Delivery :=
  match cs with
  | [] => (h, [])
  | c :: rest =>
    let r1 := step c h
    let r2 := run rest r1.1
    (r2.1, r1.2 ++ r2.2)

/-- The calls that change the elements and that the specification speaks about:
`PushBack`, `PopBack` on a non-empty sequence, `Clear`, and the two assignments
when `other` is another object. -/
def Call.mutates {T : Type} (c : Call T) (h : Heap T) : Bool :=
  match c with
  | Call.pushBack _ _ => true
  | Call.popBack a => !(h a).data_.isEmpty
  | Call.clear _ => true
  | Call.assignCopy a b => a != b
  | Call.assignMove a b _ => a != b
  | Call.size _ => false
  | Call.empty _ => false
  | Call.addObserver _ _ => false
  | Call.removeObserver _ _ => false

/-- The objects of `main` just before `v = v2`: `v` (address `0`) holds `3, 4`
and has the observer `o` (address `1`) registered, `v2` (address `1`) holds
`1, 2, 3` and has no observer; every other address holds an empty vector. -/
def mainHeap : Heap Nat := fun a =>
  if a = 0 then { data_ := [3, 4], observers := [1] }
  else if a = 1 then { data_ := [1, 2, 3], observers := [] }
  else { data_ := [], observers := [] }

/-- The value an enumerator of `enum class CollectionAction` stands for: the
enumerators are numbered from `0` in the order they are declared. -/
def CollectionAction.underlying : CollectionAction → Nat
  | CollectionAction.ADD => 0
  | CollectionAction.REMOVE => 1
  | CollectionAction.CLEAR => 2
  | CollectionAction.ASSIGN => 3

/-- The body of `to_string` on the value held by its argument: the `switch` with
its four `case` labels, and the `return ""` behind it for a value that matches
no label. -/
def to_string_switch (value : Nat) : String :=
  if value = CollectionAction.ADD.underlying then "add"
  else if value = CollectionAction.REMOVE.underlying then "remove"
  else if value = CollectionAction.CLEAR.underlying then "clear"
  else if value = CollectionAction.ASSIGN.underlying then "assign"
  else ""

/-- `std::string to_string(CollectionAction action)`. -/
def to_string (action : CollectionAction) : String :=
  to_string_switch action.underlying

/-- `ObservableVector()`: no element, no observer. -/
def ObservableVector.ctorDefault {T : Type} : ObservableVector T :=
  { data_ := [], observers := [] }

/-- `ObservableVector(std::initializer_list<T> init)`: the elements of `init`,
no observer. -/
def ObservableVector.ctorInitializerList {T : Type} (init : List T) : ObservableVector T :=
  { data_ := init, observers := [] }

/-- The function `main` of the source.  `v` lives at address `0`, `v2` at
address `1`, the temporary `ObservableVector<int>{7, 8, 9}` at address `2`; the
observer `o` has address `1`.  `residue` is what the move assignment leaves in
the temporary.  The result is the final store and all calls of
`CollectionChanged`, oldest first. -/
def main (residue : List Nat) : Heap Nat × List Delivery :=
  let h0 : Heap Nat := fun _ => ObservableVector.ctorDefault
  let r1 := run
    [Call.addObserver 0 1,
     Call.pushBack 0 1,
     Call.pushBack 0 2,
     Call.popBack 0,
     Call.clear 0,
     Call.removeObserver 0 1,
     Call.pushBack 0 3,
     Call.pushBack 0 4,
     Call.addObserver 0 1] h0
  let h1 : Heap Nat := Function.update r1.1 1 (ObservableVector.ctorInitializerList [1, 2, 3])
  let r2 := run [Call.assignCopy 0 1] h1
  let h2 : Heap Nat := Function.update r2.1 2 (ObservableVector.ctorInitializerList [7, 8, 9])
  let r3 := run [Call.assignMove 0 2 residue] h2
  (r3.1, r1.2 ++ (r2.2 ++ r3.2))

/-- The storage of the `std::vector<CollectionObserver*>` member: `slots` is the
memory from `begin()` on, `finish` is `end() - begin()`, the number of slots in
use.  A slot at or behind `finish` keeps what was last written into it. -/
structure ObserverBuffer where
  slots : List ObserverPtr
  finish : Nat
  deriving DecidableEq, Repr

/-- The storage of a vector that holds exactly `obs`. -/
def ObserverBuffer.ofList (obs : List ObserverPtr) : ObserverBuffer :=
  { slots := obs, finish := obs.length }

/-- The entries of the vector: the slots in `[begin(), end())`. -/
def ObserverBuffer.toList (b : ObserverBuffer) : List ObserverPtr :=
  b.slots.take b.finish

/-- `std::find(first, last, value)` on slot positions: the first position in
`[first, last)` whose slot holds `value`, or `last`.  The first argument bounds
the number of steps; `last - first` is enough. -/
def std_find (slots : List ObserverPtr) (value : ObserverPtr) :
    Nat → Nat → Nat → Nat
  | 0, first, _ => first
  | fuel + 1, first, last =>
    if first ≠ last then
      if slots.getD first nullptr = value then first
      else std_find slots value fuel (first + 1) last
    else first

/-- The loop of `std::remove` behind the first match:
`for (i = first; ++i != last;) if (!(*i == value)) *first++ = std::move(*i);`
It returns the slots and the final `first`.  The first argument bounds the
number of steps; `last - i` is enough. -/
def std_remove_loop (value : ObserverPtr) (last : Nat) :
    Nat → List ObserverPtr → Nat → Nat → List ObserverPtr × Nat
  | 0, slots, _, first => (slots, first)
  | fuel + 1, slots, i, first =>
    if i + 1 ≠ last then
      if slots.getD (i + 1) nullptr ≠ value then
        std_remove_loop value last fuel
          (slots.set first (slots.getD (i + 1) nullptr)) (i + 1) (first + 1)
      else
        std_remove_loop value last fuel slots (i + 1) first
    else (slots, first)

/-- `std::remove(first, last, value)`:
`first = std::find(first, last, value); if (first != last) <loop>; return first;`
The entries that differ from `value` are moved to the front, in their order; the
result is the slots and the position behind the last entry kept. -/
def std_remove (slots : List ObserverPtr) (first last : Nat) (value : ObserverPtr) :
    List ObserverPtr × Nat :=
  let found := std_find slots value (last - first) first last
  if found ≠ last then std_remove_loop value last (last - found) slots found found
  else (slots, found)

/-- `observers.erase(std::remove(begin, end, o), end)` on the storage: pointers
have no destructor, so `erase(p, end())` only moves `end()` back to `p`. -/
def ObserverBuffer.RemoveObserver (b : ObserverBuffer) (o : ObserverPtr) : ObserverBuffer :=
  let r := std_remove b.slots 0 b.finish o
  { slots := r.1, finish := r.2 }

/-- What one dispatch loop did when callbacks may change the observer list while
the loop runs: the storage at the end, the calls made, and the positions the
loop read although they were at or behind `end()` at the time of the read. -/
structure WalkResult where
  buffer : ObserverBuffer
  deliveries : List Delivery
  strayReads : List Nat
  deriving DecidableEq, Repr

/-- The range-based `for` of the mutating members, written out:
`auto it = observers.begin(); auto end = observers.end();`
`for (; it != end; ++it) { auto* observer = *it; if (observer) observer->CollectionChanged(n); }`
with the callback run in place.  `removesItself o` tells whether the callback
of `o` calls `RemoveObserver(o)` on the sequence that notifies it; other
callbacks leave the sequence alone.  `erase` invalidates `it` and `end`, so what
happens after such a callback is undefined in C++; here iterators are slot
positions (pointers into the storage), which is how the usual implementations
behave.  The first `Nat` bounds the number of steps (`end - it` is enough), the
last two are `it` and `end`. -/
def dispatchWalk (removesItself : ObserverPtr → Bool) (n : CollectionChangeNotification) :
    Nat → ObserverBuffer → Nat → Nat → WalkResult
  | 0, b, _, _ => { buffer := b, deliveries := [], strayReads := [] }
  | fuel + 1, b, it, end_ =>
    if it ≠ end_ then
      let observer := b.slots.getD it nullptr
      let stray := if it < b.finish then [] else [it]
      if observer ≠ nullptr then
        let b1 := if removesItself observer then b.RemoveObserver observer else b
        let r := dispatchWalk removesItself n fuel b1 (it + 1) end_
        { buffer := r.buffer,
          deliveries := { observer := observer, notification := n } :: r.deliveries,
          strayReads := stray ++ r.strayReads }
      else
        let r := dispatchWalk removesItself n fuel b (it + 1) end_
        { r with strayReads := stray ++ r.strayReads }
    else { buffer := b, deliveries := [], strayReads := [] }

/-- `PushBack` with the callbacks run in place: `data_.push_back(value)`, then
the loop over the storage of `observers`. -/
def ObservableVector.PushBackWalk {T : Type} (removesItself : ObserverPtr → Bool)
    (self : ObservableVector T) (value : T) : ObservableVector T × WalkResult :=
  let data1 := self.data_ ++ [value]
  let b := ObserverBuffer.ofList self.observers
  let r := dispatchWalk removesItself
    { action := CollectionAction.ADD, item_indexes := [data1.length - 1] }
    b.finish b 0 b.finish
  ({ data_ := data1, observers := r.buffer.toList }, r)

/-- The number of values of `size_t`, which has 64 bits. -/
def SIZE_T_RANGE : Nat := 2 ^ 64

/-- What `size()`, `empty()` and `pop_back()` of a `std::vector` work on: the
positions of `begin()` and `end()`, counted in elements and held as `size_t`
values. -/
structure VectorBounds where
  start : Nat
  finish : Nat
  deriving DecidableEq, Repr

/-- `size()` of `std::vector`: `size_type(finish - start)`, computed in `size_t`. -/
def VectorBounds.size (b : VectorBounds) : Nat :=
  (b.finish + SIZE_T_RANGE - b.start) % SIZE_T_RANGE

/-- `empty()` of `std::vector`: `begin() == end()`. -/
def VectorBounds.empty (b : VectorBounds) : Bool :=
  b.start == b.finish

/-- `pop_back()` of `std::vector` behind its precondition: `--finish`, computed
in `size_t` (destroying the element does not move the bounds). -/
def VectorBounds.pop_back (b : VectorBounds) : VectorBounds :=
  { b with finish := (b.finish + SIZE_T_RANGE - 1) % SIZE_T_RANGE }

/-- `PopBack()` followed on the bounds of `data_`: `data_.pop_back()`, then the
loop with `{REMOVE, {data_.size()}}`.  The member has no emptiness test of its
own, so on an empty `data_` the outcome is the library's: `assertions` tells
whether the `std::vector` of the build checks the precondition of `pop_back`
(`_GLIBCXX_ASSERTIONS`, a hardened libc++).  If it does, the program is
terminated inside `pop_back` and the member never returns (`none`).  If it does
not, `pop_back` decrements `finish` and the loop runs. -/
def PopBackLib (assertions : Bool) (bounds : VectorBounds) (observers : List ObserverPtr) :
    Option (VectorBounds × List Delivery) :=
  if assertions && bounds.empty then none
  else
    let bounds1 := bounds.pop_back
    some (bounds1, dispatch observers
      { action := CollectionAction.REMOVE, item_indexes := [bounds1.size] })

/-! ## Facts about the dispatch loop -/

/-- The loop calls exactly the non-null entries, front to back, each with `n`. -/
theorem dispatch_eq_map (obs : List ObserverPtr) (n : CollectionChangeNotification) :
    dispatch obs n =
      (obs.filter (fun o => o != nullptr)).map
        (fun o => { observer := o, notification := n }) := by
  induction obs with
  | nil => rfl
  | cons o rest ih =>
    by_cases ho : o = nullptr
    · simp [dispatch, ho, ih]
    · simp [dispatch, ho, ih]

/-- The receivers of one loop are the non-null entries in list order. -/
theorem recipients_dispatch (obs : List ObserverPtr) (n : CollectionChangeNotification) :
    recipients (dispatch obs n) = obs.filter (fun o => o != nullptr) := by
  induction obs with
  | nil => rfl
  | cons o rest ih =>
    by_cases ho : o = nullptr
    · simpa [dispatch, ho] using ih
    · simp only [recipients] at ih
      simp [dispatch, ho, recipients, ih]

/-- A non-null observer is handed `n` once for each of its entries in the list. -/
theorem received_dispatch (obs : List ObserverPtr) (n : CollectionChangeNotification)
    (o : ObserverPtr) (ho : o ≠ nullptr) :
    received o (dispatch obs n) = List.replicate (obs.count o) n := by
  induction obs with
  | nil => rfl
  | cons p rest ih =>
    by_cases hp : p = nullptr
    · have hne : ¬ (nullptr = o) := fun h => ho h.symm
      simpa [dispatch, hp, List.count_cons, hne] using ih
    · by_cases hpo : p = o
      · subst hpo
        simp only [received] at ih
        simp [dispatch, hp, received, ih, List.replicate_succ]
      · have hb : (p == o) = false := by simpa using hpo
        simp only [received] at ih
        simp [dispatch, hp, received, ih, List.count_cons, hb, hpo]

/-- The null pointer is never called. -/
theorem received_nullptr (obs : List ObserverPtr) (n : CollectionChangeNotification) :
    received nullptr (dispatch obs n) = [] := by
  induction obs with
  | nil => rfl
  | cons p rest ih =>
    by_cases hp : p = nullptr
    · simpa [dispatch, hp] using ih
    · simp only [received] at ih
      simp [dispatch, hp, received, ih]

/-- An observer that has no entry in the list is not called. -/
theorem received_of_not_mem (obs : List ObserverPtr) (n : CollectionChangeNotification)
    (o : ObserverPtr) (ho : o ∉ obs) : received o (dispatch obs n) = [] := by
  by_cases hn : o = nullptr
  · subst hn
    exact received_nullptr obs n
  · rw [received_dispatch obs n o hn, List.count_eq_zero_of_not_mem ho]
    rfl

/-- What an observer was handed over two stretches of deliveries. -/
theorem received_append (o : ObserverPtr) (xs ys : List Delivery) :
    received o (xs ++ ys) = received o xs ++ received o ys := by
  simp [received]

/-! ## Facts about single calls -/

/-- A call that changes the elements runs the dispatch loop once over the
observer list of its target, with one notification. -/
theorem step_mutates_dispatch {T : Type} (c : Call T) (h : Heap T)
    (hm : c.mutates h = true) :
    ∃ n, (step c h).2 = dispatch (h c.target).observers n := by
  cases c with
  | pushBack a v => exact ⟨_, rfl⟩
  | popBack a => exact ⟨_, rfl⟩
  | clear a => exact ⟨_, rfl⟩
  | assignCopy a b =>
    have hab : a ≠ b := by simpa [Call.mutates] using hm
    exact ⟨{ action := CollectionAction.ASSIGN, item_indexes := [] },
      by simp [step, operatorAssignCopy, hab, Call.target]⟩
  | assignMove a b residue =>
    have hab : a ≠ b := by simpa [Call.mutates] using hm
    exact ⟨{ action := CollectionAction.ASSIGN, item_indexes := [] },
      by simp [step, operatorAssignMove, hab, Call.target]⟩
  | size a => simp [Call.mutates] at hm
  | empty a => simp [Call.mutates] at hm
  | addObserver a o => simp [Call.mutates] at hm
  | removeObserver a o => simp [Call.mutates] at hm

/-- Any call either calls nobody or runs the dispatch loop once over the
observer list of its target. -/
theorem step_silent_or_dispatch {T : Type} (c : Call T) (h : Heap T) :
    (step c h).2 = [] ∨ ∃ n, (step c h).2 = dispatch (h c.target).observers n := by
  cases c with
  | pushBack a v => exact Or.inr ⟨_, rfl⟩
  | popBack a => exact Or.inr ⟨_, rfl⟩
  | clear a => exact Or.inr ⟨_, rfl⟩
  | assignCopy a b =>
    by_cases hab : a = b
    · exact Or.inl (by simp [step, operatorAssignCopy, hab])
    · exact Or.inr ⟨{ action := CollectionAction.ASSIGN, item_indexes := [] },
        by simp [step, operatorAssignCopy, hab, Call.target]⟩
  | assignMove a b residue =>
    by_cases hab : a = b
    · exact Or.inl (by simp [step, operatorAssignMove, hab])
    · exact Or.inr ⟨{ action := CollectionAction.ASSIGN, item_indexes := [] },
        by simp [step, operatorAssignMove, hab, Call.target]⟩
  | size a => exact Or.inl rfl
  | empty a => exact Or.inl rfl
  | addObserver a o => exact Or.inl rfl
  | removeObserver a o => exact Or.inl rfl

/-- A call on an object that is not `AddObserver(o)` does not bring `o` into the
observer list of that object. -/
theorem step_keeps_unregistered {T : Type} (c : Call T) (h : Heap T) (o : ObserverPtr)
    (hc : c ≠ Call.addObserver c.target o) (ho : o ∉ (h c.target).observers) :
    o ∉ ((step c h).1 c.target).observers := by
  cases c with
  | pushBack a v => simpa [step, Call.target, ObservableVector.PushBack] using ho
  | popBack a => simpa [step, Call.target, ObservableVector.PopBack] using ho
  | clear a => simpa [step, Call.target, ObservableVector.Clear] using ho
  | assignCopy a b =>
    by_cases hab : a = b
    · simpa [step, operatorAssignCopy, hab, Call.target] using ho
    · simpa [step, operatorAssignCopy, hab, Call.target] using ho
  | assignMove a b residue =>
    by_cases hab : a = b
    · simpa [step, operatorAssignMove, hab, Call.target] using ho
    · simpa [step, operatorAssignMove, hab, Call.target] using ho
  | size a => simpa [step, Call.target] using ho
  | empty a => simpa [step, Call.target] using ho
  | addObserver a p =>
    have hpo : o ≠ p := by
      intro e
      apply hc
      simp [Call.target, e]
    simp only [Call.target] at ho
    simp [step, Call.target, ObservableVector.AddObserver, ho, hpo]
  | removeObserver a p =>
    simp only [Call.target] at ho
    simp [step, Call.target, ObservableVector.RemoveObserver, ho]

/-- While `o` has no entry in the observer list of the object at `a`, and is not
registered again, calls on that object never reach `o`. -/
theorem run_unregistered {T : Type} (o : ObserverPtr) (a : Addr) (cs : List (Call T)) :
    ∀ h : Heap T, o ∉ (h a).observers →
      (∀ c ∈ cs, c.target = a ∧ c ≠ Call.addObserver a o) →
      received o (run cs h).2 = [] := by
  induction cs with
  | nil =>
    intro h _ _
    rfl
  | cons c rest ih =>
    intro h ho hcs
    obtain ⟨hta, hne⟩ := hcs c (List.mem_cons_self c rest)
    have hrest : ∀ c1 ∈ rest, c1.target = a ∧ c1 ≠ Call.addObserver a o :=
      fun c1 hc1 => hcs c1 (List.mem_cons_of_mem c hc1)
    have hfirst : received o (step c h).2 = [] := by
      rcases step_silent_or_dispatch c h with h0 | ⟨n, hn⟩
      · rw [h0]
        rfl
      · rw [hn, hta]
        exact received_of_not_mem _ _ o ho
    have hkeep : o ∉ ((step c h).1 a).observers := by
      have := step_keeps_unregistered c h o (by rw [hta]; exact hne) (by rw [hta]; exact ho)
      rwa [hta] at this
    simp only [run]
    rw [received_append, hfirst, ih (step c h).1 hkeep hrest]
    rfl

/-- Registering `o` `k` times in a row puts `k` entries `o` at the end of the
observer list and leaves the elements alone. -/
theorem iterate_AddObserver {T : Type} (o : ObserverPtr) (k : Nat) :
    ∀ S : ObservableVector T,
      ((fun s : ObservableVector T => s.AddObserver o)^[k] S).observers
          = S.observers ++ List.replicate k o
      ∧ ((fun s : ObservableVector T => s.AddObserver o)^[k] S).data_ = S.data_ := by
  induction k with
  | zero =>
    intro S
    simp
  | succ k ih =>
    intro S
    rw [Function.iterate_succ_apply]
    obtain ⟨h1, h2⟩ := ih (S.AddObserver o)
    rw [h1, h2]
    simp [ObservableVector.AddObserver, List.replicate_succ]

/-! ## The element-changing members -/

/-- C1: for every sequence `S` and value `v`, `PushBack(v)` keeps the previous
elements in place and in order, makes `size()` one larger, makes `v` the last
element, and calls the non-null entries of the observer list, one call per
entry, each with `{ADD, [size() - 1]}` where `size()` is the size after the
insertion, which is the size before the call.  So a non-null observer is handed
that notification once per registration (exactly once when it is registered
once), and nobody is handed anything else. -/
theorem PushBack_contract {T : Type} (S : ObservableVector T) (v : T) :
    (S.PushBack v).1.data_ = S.data_ ++ [v]
    ∧ (∀ i, i < S.size → (S.PushBack v).1.data_[i]? = S.data_[i]?)
    ∧ (S.PushBack v).1.size = S.size + 1
    ∧ (S.PushBack v).1.data_.getLast? = some v
    ∧ (S.PushBack v).1.size - 1 = S.size
    ∧ (S.PushBack v).2 =
        (S.observers.filter (fun o => o != nullptr)).map
          (fun o => { observer := o,
                      notification := { action := CollectionAction.ADD,
                                        item_indexes := [(S.PushBack v).1.size - 1] } })
    ∧ (∀ o, o ≠ nullptr →
        received o (S.PushBack v).2 =
          List.replicate (S.observers.count o)
            { action := CollectionAction.ADD, item_indexes := [S.size] })
    ∧ (∀ o, o ≠ nullptr → S.observers.count o = 1 →
        received o (S.PushBack v).2 =
          [{ action := CollectionAction.ADD, item_indexes := [S.size] }])
    ∧ (∀ o, o ∉ S.observers → received o (S.PushBack v).2 = []) := by
  have hrec : ∀ o, o ≠ nullptr →
      received o (S.PushBack v).2 =
        List.replicate (S.observers.count o)
          { action := CollectionAction.ADD, item_indexes := [S.size] } := by
    intro o ho
    simpa [ObservableVector.PushBack, ObservableVector.size] using
      received_dispatch S.observers
        { action := CollectionAction.ADD, item_indexes := [S.data_.length] } o ho
  refine ⟨rfl, ?_, ?_, ?_, ?_, ?_, hrec, ?_, ?_⟩
  · intro i hi
    simp only [ObservableVector.size] at hi
    simp [ObservableVector.PushBack, List.getElem?_append_left hi]
  · simp [ObservableVector.PushBack, ObservableVector.size]
  · simp [ObservableVector.PushBack]
  · simp [ObservableVector.PushBack, ObservableVector.size]
  · simp [ObservableVector.PushBack, ObservableVector.size, dispatch_eq_map]
  · intro o ho h1
    rw [hrec o ho, h1]
    rfl
  · intro o ho
    exact received_of_not_mem _ _ o ho

/-- The append `v.PushBack(2)` of `main`, made when `v` holds `1` and has one
observer: the observer is handed `{ADD, [1]}` once. -/
theorem PushBack_contract_witness :
    (({ data_ := [1], observers := [1] } : ObservableVector Nat).PushBack 2).1.data_ = [1] ++ [2]
    ∧ received 1 (({ data_ := [1], observers := [1] } : ObservableVector Nat).PushBack 2).2
        = [{ action := CollectionAction.ADD,
             item_indexes := [({ data_ := [1], observers := [1] } : ObservableVector Nat).size] }] :=
  ⟨(PushBack_contract ({ data_ := [1], observers := [1] } : ObservableVector Nat) 2).1,
   (PushBack_contract ({ data_ := [1], observers := [1] } : ObservableVector Nat)
      2).2.2.2.2.2.2.2.1 1 (by decide) (by decide)⟩

/-- C2: for every non-empty sequence `S`, `PopBack()` removes exactly the last
element (what remains is the previous elements without the last, in order),
makes `size()` one smaller, and calls the non-null entries of the observer
list, one call per entry, each with `{REMOVE, [i]}` where `i` is the size after
the removal, the index at which the removed element was stored. -/
theorem PopBack_contract {T : Type} (S : ObservableVector T) (hne : S.data_ ≠ []) :
    S.PopBack.1.data_ = S.data_.dropLast
    ∧ S.data_ = S.PopBack.1.data_ ++ [S.data_.getLast hne]
    ∧ S.PopBack.1.size + 1 = S.size
    ∧ S.data_[S.PopBack.1.size]? = some (S.data_.getLast hne)
    ∧ S.PopBack.2 =
        (S.observers.filter (fun o => o != nullptr)).map
          (fun o => { observer := o,
                      notification := { action := CollectionAction.REMOVE,
                                        item_indexes := [S.PopBack.1.size] } })
    ∧ (∀ o, o ≠ nullptr →
        received o S.PopBack.2 =
          List.replicate (S.observers.count o)
            { action := CollectionAction.REMOVE, item_indexes := [S.size - 1] })
    ∧ (∀ o, o ≠ nullptr → S.observers.count o = 1 →
        received o S.PopBack.2 =
          [{ action := CollectionAction.REMOVE, item_indexes := [S.PopBack.1.size] }])
    ∧ (∀ o, o ∉ S.observers → received o S.PopBack.2 = []) := by
  have hlen : S.data_.dropLast.length = S.data_.length - 1 := List.length_dropLast S.data_
  have hpos : 0 < S.data_.length := List.length_pos.mpr hne
  have hrec : ∀ o, o ≠ nullptr →
      received o S.PopBack.2 =
        List.replicate (S.observers.count o)
          { action := CollectionAction.REMOVE, item_indexes := [S.size - 1] } := by
    intro o ho
    simpa [ObservableVector.PopBack, ObservableVector.size] using
      received_dispatch S.observers
        { action := CollectionAction.REMOVE, item_indexes := [S.data_.length - 1] } o ho
  have hsz : S.PopBack.1.size = S.size - 1 := by
    simp [ObservableVector.PopBack, ObservableVector.size]
  refine ⟨rfl, ?_, ?_, ?_, ?_, hrec, ?_, ?_⟩
  · simp [ObservableVector.PopBack, List.dropLast_append_getLast hne]
  · rw [hsz]
    simp only [ObservableVector.size]
    omega
  · rw [hsz]
    simp only [ObservableVector.size]
    rw [List.getLast_eq_getElem, List.getElem?_eq_getElem]
  · simp [ObservableVector.PopBack, ObservableVector.size, dispatch_eq_map]
  · intro o ho h1
    rw [hrec o ho, h1, hsz]
    rfl
  · intro o ho
    exact received_of_not_mem _ _ o ho

/-- A non-empty sequence with a null entry and a twice registered observer, on
which `PopBack_contract` is applied. -/
theorem PopBack_contract_witness :
    (({ data_ := [5, 6], observers := [1, 0, 2, 1] } : ObservableVector Nat).PopBack.1.data_
        = [5])
    ∧ received 2 ({ data_ := [5, 6], observers := [1, 0, 2, 1] } : ObservableVector Nat).PopBack.2
        = [{ action := CollectionAction.REMOVE, item_indexes := [1] }] :=
  ⟨(PopBack_contract ({ data_ := [5, 6], observers := [1, 0, 2, 1] } : ObservableVector Nat)
      (by decide)).1,
   (PopBack_contract ({ data_ := [5, 6], observers := [1, 0, 2, 1] } : ObservableVector Nat)
      (by decide)).2.2.2.2.2.2.1 2 (by decide) (by decide)⟩

/-- C3: for every sequence `S`, empty or not, after `Clear()` `size()` is `0`,
and the non-null entries of the observer list have been called, one call per
entry, each with `{CLEAR, []}`. -/
theorem Clear_contract {T : Type} (S : ObservableVector T) :
    S.Clear.1.size = 0
    ∧ S.Clear.1.data_ = []
    ∧ S.Clear.2 =
        (S.observers.filter (fun o => o != nullptr)).map
          (fun o => { observer := o,
                      notification := { action := CollectionAction.CLEAR,
                                        item_indexes := [] } })
    ∧ (∀ o, o ≠ nullptr →
        received o S.Clear.2 =
          List.replicate (S.observers.count o)
            { action := CollectionAction.CLEAR, item_indexes := [] })
    ∧ (∀ o, o ≠ nullptr → S.observers.count o = 1 →
        received o S.Clear.2 = [{ action := CollectionAction.CLEAR, item_indexes := [] }])
    ∧ (∀ o, o ∉ S.observers → received o S.Clear.2 = [])
    ∧ (∀ obs : List ObserverPtr, ∀ o, o ≠ nullptr → obs.count o = 1 →
        received o ({ data_ := [], observers := obs } : ObservableVector T).Clear.2
          = [{ action := CollectionAction.CLEAR, item_indexes := [] }]) := by
  have hrec : ∀ (R : ObservableVector T) (o : ObserverPtr), o ≠ nullptr →
      received o R.Clear.2 =
        List.replicate (R.observers.count o)
          { action := CollectionAction.CLEAR, item_indexes := [] } := by
    intro R o ho
    simpa [ObservableVector.Clear] using
      received_dispatch R.observers
        { action := CollectionAction.CLEAR, item_indexes := [] } o ho
  refine ⟨rfl, rfl, ?_, hrec S, ?_, ?_, ?_⟩
  · simp [ObservableVector.Clear, dispatch_eq_map]
  · intro o ho h1
    rw [hrec S o ho, h1]
    rfl
  · intro o ho
    exact received_of_not_mem _ _ o ho
  · intro obs o ho h1
    rw [hrec _ o ho]
    simp only [h1]
    rfl

/-- A `Clear` on an empty sequence with one observer still calls it once. -/
theorem Clear_contract_witness :
    ({ data_ := [], observers := [1] } : ObservableVector Nat).Clear.1.size = 0
    ∧ received 1 ({ data_ := [], observers := [1] } : ObservableVector Nat).Clear.2
        = [{ action := CollectionAction.CLEAR, item_indexes := [] }] :=
  ⟨(Clear_contract ({ data_ := [], observers := [1] } : ObservableVector Nat)).1,
   (Clear_contract ({ data_ := [], observers := [1] } : ObservableVector Nat)).2.2.2.2.1 1
      (by decide) (by decide)⟩

/-! ## The assignment operators -/

/-- C4: when `S2` (at `b`) is another object than `S` (at `a`), after the copy
assignment `S = S2` the elements of `S` are the original elements of `S2` (same
length, same order), `S2` is as it was, and the non-null entries of the observer
list of `S` have been called, one call per entry, each with `{ASSIGN, []}`. -/
theorem operatorAssignCopy_contract {T : Type} (h : Heap T) (a b : Addr) (hab : a ≠ b) :
    ((operatorAssignCopy a b h).1 a).data_ = (h b).data_
    ∧ ((operatorAssignCopy a b h).1 a).size = (h b).size
    ∧ (∀ i : Nat, ((operatorAssignCopy a b h).1 a).data_[i]? = (h b).data_[i]?)
    ∧ ((operatorAssignCopy a b h).1 b).data_ = (h b).data_
    ∧ (operatorAssignCopy a b h).1 b = h b
    ∧ (operatorAssignCopy a b h).2 =
        ((h a).observers.filter (fun o => o != nullptr)).map
          (fun o => { observer := o,
                      notification := { action := CollectionAction.ASSIGN,
                                        item_indexes := [] } })
    ∧ (∀ o, o ≠ nullptr →
        received o (operatorAssignCopy a b h).2 =
          List.replicate ((h a).observers.count o)
            { action := CollectionAction.ASSIGN, item_indexes := [] })
    ∧ (∀ o, o ≠ nullptr → (h a).observers.count o = 1 →
        received o (operatorAssignCopy a b h).2 =
          [{ action := CollectionAction.ASSIGN, item_indexes := [] }])
    ∧ (∀ o, o ∉ (h a).observers → received o (operatorAssignCopy a b h).2 = []) := by
  have hba : b ≠ a := fun e => hab e.symm
  have hdata : ((operatorAssignCopy a b h).1 a).data_ = (h b).data_ := by
    simp [operatorAssignCopy, hab]
  have hother : (operatorAssignCopy a b h).1 b = h b := by
    simp [operatorAssignCopy, hab, Function.update_noteq hba]
  have htr : (operatorAssignCopy a b h).2 =
      dispatch (h a).observers { action := CollectionAction.ASSIGN, item_indexes := [] } := by
    simp [operatorAssignCopy, hab]
  have hrec : ∀ o, o ≠ nullptr →
      received o (operatorAssignCopy a b h).2 =
        List.replicate ((h a).observers.count o)
          { action := CollectionAction.ASSIGN, item_indexes := [] } := by
    intro o ho
    rw [htr]
    exact received_dispatch _ _ o ho
  refine ⟨hdata, ?_, ?_, ?_, hother, ?_, hrec, ?_, ?_⟩
  · simp [ObservableVector.size, hdata]
  · intro i
    rw [hdata]
  · rw [hother]
  · rw [htr, dispatch_eq_map]
  · intro o ho h1
    rw [hrec o ho, h1]
    rfl
  · intro o ho
    rw [htr]
    exact received_of_not_mem _ _ o ho

/-- The assignment `v = v2` of `main`: `v` ends with `1, 2, 3`, `v2` keeps them,
and the observer is handed one `{ASSIGN, []}`. -/
theorem operatorAssignCopy_contract_witness :
    ((operatorAssignCopy 0 1 mainHeap).1 0).data_ = [1, 2, 3]
    ∧ ((operatorAssignCopy 0 1 mainHeap).1 1).data_ = [1, 2, 3]
    ∧ received 1 (operatorAssignCopy 0 1 mainHeap).2
        = [{ action := CollectionAction.ASSIGN, item_indexes := [] }] :=
  ⟨(operatorAssignCopy_contract mainHeap 0 1 (by decide)).1,
   (operatorAssignCopy_contract mainHeap 0 1 (by decide)).2.2.2.1,
   (operatorAssignCopy_contract mainHeap 0 1 (by decide)).2.2.2.2.2.2.2.1 1
      (by decide) (by decide)⟩

/-- C5: assigning a sequence to itself, in the copy form or in the move form,
changes nothing: the store is the same (so the elements and the observer list
of `S` are the same) and no observer is called. -/
theorem self_assignment_noop {T : Type} (h : Heap T) (a : Addr) (residue : List T) :
    operatorAssignCopy a a h = (h, [])
    ∧ operatorAssignMove a a residue h = (h, [])
    ∧ ((operatorAssignCopy a a h).1 a).data_ = (h a).data_
    ∧ ((operatorAssignCopy a a h).1 a).observers = (h a).observers
    ∧ ((operatorAssignMove a a residue h).1 a).data_ = (h a).data_
    ∧ ((operatorAssignMove a a residue h).1 a).observers = (h a).observers
    ∧ (∀ o, received o (operatorAssignCopy a a h).2 = [])
    ∧ (∀ o, received o (operatorAssignMove a a residue h).2 = []) := by
  have hc : operatorAssignCopy a a h = (h, []) := by simp [operatorAssignCopy]
  have hm : operatorAssignMove a a residue h = (h, []) := by simp [operatorAssignMove]
  refine ⟨hc, hm, ?_, ?_, ?_, ?_, ?_, ?_⟩
  · rw [hc]
  · rw [hc]
  · rw [hm]
  · rw [hm]
  · intro o
    rw [hc]
    rfl
  · intro o
    rw [hm]
    rfl

/-- C6: when `S2` (at `b`) is another object than `S` (at `a`), after the move
assignment `S = std::move(S2)` the elements of `S` are the original elements of
`S2` (same length, same order) and the non-null entries of the observer list of
`S` have been called, one call per entry, each with `{ASSIGN, []}`; `S` and the
deliveries are the same as after the copy assignment, whatever is left in
`S2`. -/
theorem operatorAssignMove_contract {T : Type} (h : Heap T) (a b : Addr)
    (residue : List T) (hab : a ≠ b) :
    ((operatorAssignMove a b residue h).1 a).data_ = (h b).data_
    ∧ ((operatorAssignMove a b residue h).1 a).size = (h b).size
    ∧ (∀ i : Nat, ((operatorAssignMove a b residue h).1 a).data_[i]? = (h b).data_[i]?)
    ∧ (operatorAssignMove a b residue h).2 =
        ((h a).observers.filter (fun o => o != nullptr)).map
          (fun o => { observer := o,
                      notification := { action := CollectionAction.ASSIGN,
                                        item_indexes := [] } })
    ∧ (∀ o, o ≠ nullptr →
        received o (operatorAssignMove a b residue h).2 =
          List.replicate ((h a).observers.count o)
            { action := CollectionAction.ASSIGN, item_indexes := [] })
    ∧ (∀ o, o ≠ nullptr → (h a).observers.count o = 1 →
        received o (operatorAssignMove a b residue h).2 =
          [{ action := CollectionAction.ASSIGN, item_indexes := [] }])
    ∧ (∀ o, o ∉ (h a).observers → received o (operatorAssignMove a b residue h).2 = [])
    ∧ (operatorAssignMove a b residue h).1 a = (operatorAssignCopy a b h).1 a
    ∧ (operatorAssignMove a b residue h).2 = (operatorAssignCopy a b h).2 := by
  have hdata : ((operatorAssignMove a b residue h).1 a).data_ = (h b).data_ := by
    simp [operatorAssignMove, hab]
  have htr : (operatorAssignMove a b residue h).2 =
      dispatch (h a).observers { action := CollectionAction.ASSIGN, item_indexes := [] } := by
    simp [operatorAssignMove, hab]
  have hrec : ∀ o, o ≠ nullptr →
      received o (operatorAssignMove a b residue h).2 =
        List.replicate ((h a).observers.count o)
          { action := CollectionAction.ASSIGN, item_indexes := [] } := by
    intro o ho
    rw [htr]
    exact received_dispatch _ _ o ho
  refine ⟨hdata, ?_, ?_, ?_, hrec, ?_, ?_, ?_, ?_⟩
  · simp [ObservableVector.size, hdata]
  · intro i
    rw [hdata]
  · rw [htr, dispatch_eq_map]
  · intro o ho h1
    rw [hrec o ho, h1]
    rfl
  · intro o ho
    rw [htr]
    exact received_of_not_mem _ _ o ho
  · simp [operatorAssignMove, operatorAssignCopy, hab]
  · simp [operatorAssignMove, operatorAssignCopy, hab]

/-- The move assignment of `main`'s `v2` into `v`, leaving `v2` empty. -/
theorem operatorAssignMove_contract_witness :
    ((operatorAssignMove 0 1 [] mainHeap).1 0).data_ = [1, 2, 3]
    ∧ (operatorAssignMove 0 1 [] mainHeap).2 = (operatorAssignCopy 0 1 mainHeap).2
    ∧ received 1 (operatorAssignMove 0 1 [] mainHeap).2
        = [{ action := CollectionAction.ASSIGN, item_indexes := [] }] :=
  ⟨(operatorAssignMove_contract mainHeap 0 1 [] (by decide)).1,
   (operatorAssignMove_contract mainHeap 0 1 [] (by decide)).2.2.2.2.2.2.2.2,
   (operatorAssignMove_contract mainHeap 0 1 [] (by decide)).2.2.2.2.2.1 1
      (by decide) (by decide)⟩

/-! ## Observers: order, removal, registration, null entries -/

/-- C7: for every call that changes the elements (`PushBack`, `PopBack` on a
non-empty sequence, `Clear`, copy or move assignment from another object) and
every observer list, the receivers of the deliveries, in call order, are the
observer list with the null entries left out, and all deliveries carry the one
notification of that mutation.  So an entry `O1` that stands before an entry
`O2` in the list is called before it, and observers registered with
`AddObserver(O1)` then `AddObserver(O2)` are called in that order, after the
ones registered earlier. -/
theorem delivery_in_registration_order {T : Type} (c : Call T) (h : Heap T)
    (hm : c.mutates h = true) :
    recipients (step c h).2 = (h c.target).observers.filter (fun o => o != nullptr)
    ∧ (∃ n, ∀ d ∈ (step c h).2, d.notification = n)
    ∧ (∀ (xs ys zs : List ObserverPtr) (O1 O2 : ObserverPtr),
        O1 ≠ nullptr → O2 ≠ nullptr →
        (h c.target).observers = xs ++ O1 :: (ys ++ O2 :: zs) →
        recipients (step c h).2 =
          xs.filter (fun o => o != nullptr) ++
            O1 :: (ys.filter (fun o => o != nullptr) ++
              O2 :: zs.filter (fun o => o != nullptr)))
    ∧ (∀ (S : ObservableVector T) (O1 O2 : ObserverPtr),
        O1 ≠ nullptr → O2 ≠ nullptr →
        h c.target = (S.AddObserver O1).AddObserver O2 →
        recipients (step c h).2 =
          S.observers.filter (fun o => o != nullptr) ++ [O1, O2]) := by
  obtain ⟨n, hn⟩ := step_mutates_dispatch c h hm
  have hrcp : recipients (step c h).2 =
      (h c.target).observers.filter (fun o => o != nullptr) := by
    rw [hn]
    exact recipients_dispatch _ n
  refine ⟨hrcp, ⟨n, ?_⟩, ?_, ?_⟩
  · intro d hd
    rw [hn, dispatch_eq_map] at hd
    obtain ⟨o, _, rfl⟩ := List.mem_map.mp hd
    rfl
  · intro xs ys zs O1 O2 h1 h2 hobs
    rw [hrcp, hobs]
    simp [List.filter_cons, h1, h2]
  · intro S O1 O2 h1 h2 hS
    rw [hrcp, hS]
    simp [ObservableVector.AddObserver, List.filter_cons, h1, h2]

/-- The copy assignment `v = v2` of `main` reaches the one registered observer. -/
theorem delivery_in_registration_order_witness :
    recipients (step (Call.assignCopy 0 1) mainHeap).2
      = (mainHeap 0).observers.filter (fun o => o != nullptr) :=
  (delivery_in_registration_order (Call.assignCopy 0 1) mainHeap (by decide)).1

/-- C8: however often `O` was registered, after `RemoveObserver(O)` the observer
list has no entry `O`, the elements are as before, and `RemoveObserver` itself
calls nobody.  The next `PushBack`, `PopBack` or `Clear` does not reach `O`, and
neither does any later call on the sequence (assignments included) as long as
`AddObserver(O)` is not called on it again. -/
theorem RemoveObserver_contract {T : Type} (S : ObservableVector T) (o : ObserverPtr) :
    o ∉ (S.RemoveObserver o).observers
    ∧ (S.RemoveObserver o).observers.count o = 0
    ∧ (S.RemoveObserver o).data_ = S.data_
    ∧ (∀ (h : Heap T) (a : Addr),
        (step (Call.removeObserver a o) h).2 = []
        ∧ (step (Call.removeObserver a o) h).1 a = (h a).RemoveObserver o)
    ∧ (∀ v, received o ((S.RemoveObserver o).PushBack v).2 = [])
    ∧ received o (S.RemoveObserver o).PopBack.2 = []
    ∧ received o (S.RemoveObserver o).Clear.2 = []
    ∧ (∀ (h : Heap T) (a : Addr) (cs : List (Call T)),
        (∀ c ∈ cs, c.target = a ∧ c ≠ Call.addObserver a o) →
        received o (run (Call.removeObserver a o :: cs) h).2 = []) := by
  have hnot : ∀ R : ObservableVector T, o ∉ (R.RemoveObserver o).observers := by
    intro R
    simp [ObservableVector.RemoveObserver, List.mem_filter]
  refine ⟨hnot S, List.count_eq_zero_of_not_mem (hnot S), rfl, ?_, ?_, ?_, ?_, ?_⟩
  · intro h a
    exact ⟨rfl, by simp [step]⟩
  · intro v
    exact received_of_not_mem _ _ o (hnot S)
  · exact received_of_not_mem _ _ o (hnot S)
  · exact received_of_not_mem _ _ o (hnot S)
  · intro h a cs hcs
    have hstate : o ∉ ((step (Call.removeObserver a o) h).1 a).observers := by
      simpa [step] using hnot (h a)
    simp only [run]
    rw [received_append, run_unregistered o a cs _ hstate hcs]
    rfl

/-- An observer registered twice and removed once is not reached by the calls
that follow, here three appends and a clear. -/
theorem RemoveObserver_contract_witness :
    (({ data_ := [5], observers := [7, 0, 7, 8] } : ObservableVector Nat).RemoveObserver 7).observers
        = [0, 8]
    ∧ received 7
        (run [Call.removeObserver 0 7, Call.pushBack 0 3, Call.pushBack 0 4, Call.clear 0]
          (fun _ => ({ data_ := [5], observers := [7, 0, 7, 8] } : ObservableVector Nat))).2
        = [] :=
  ⟨by decide,
   (RemoveObserver_contract ({ data_ := [5], observers := [7, 0, 7, 8] } : ObservableVector Nat)
      7).2.2.2.2.2.2.2
      (fun _ => { data_ := [5], observers := [7, 0, 7, 8] }) 0
      [Call.pushBack 0 3, Call.pushBack 0 4, Call.clear 0]
      (by
        intro c hc
        simp only [List.mem_cons, List.mem_singleton, List.not_mem_nil, or_false] at hc
        rcases hc with rfl | rfl | rfl <;> exact ⟨rfl, by simp⟩)⟩

/-- C9: `AddObserver(O)` puts `O` at the end of the observer list, also when `O`
is in it already, calls nobody and leaves the elements alone.  Hence a non-null
observer that has `k` entries in the list is handed the notification of every
later change of the elements `k` times: `k` registrations in a row add `k`
entries, and an observer registered twice on a sequence that did not have it is
handed each notification twice. -/
theorem AddObserver_contract {T : Type} (S : ObservableVector T) (o : ObserverPtr) :
    (S.AddObserver o).observers = S.observers ++ [o]
    ∧ (S.AddObserver o).observers.count o = S.observers.count o + 1
    ∧ (S.AddObserver o).data_ = S.data_
    ∧ (∀ (h : Heap T) (a : Addr),
        (step (Call.addObserver a o) h).2 = []
        ∧ (step (Call.addObserver a o) h).1 a = (h a).AddObserver o)
    ∧ (∀ k : Nat,
        ((fun s : ObservableVector T => s.AddObserver o)^[k] S).observers.count o
          = S.observers.count o + k)
    ∧ (∀ (c : Call T) (h : Heap T) (k : Nat), o ≠ nullptr → c.mutates h = true →
        (h c.target).observers.count o = k →
        ∃ n, (step c h).2 = dispatch (h c.target).observers n
          ∧ received o (step c h).2 = List.replicate k n)
    ∧ (∀ v, o ≠ nullptr → o ∉ S.observers →
        received o (((S.AddObserver o).AddObserver o).PushBack v).2 =
          [{ action := CollectionAction.ADD, item_indexes := [S.size] },
           { action := CollectionAction.ADD, item_indexes := [S.size] }])
    ∧ (∀ (c : Call T) (h : Heap T), o ≠ nullptr → o ∉ S.observers →
        c.mutates h = true → h c.target = (S.AddObserver o).AddObserver o →
        ∃ n, received o (step c h).2 = [n, n]) := by
  have hcount2 : o ∉ S.observers →
      ((S.AddObserver o).AddObserver o).observers.count o = 2 := by
    intro hnot
    simp [ObservableVector.AddObserver, List.count_eq_zero_of_not_mem hnot]
  refine ⟨rfl, ?_, rfl, ?_, ?_, ?_, ?_, ?_⟩
  · simp [ObservableVector.AddObserver]
  · intro h a
    exact ⟨rfl, by simp [step]⟩
  · intro k
    rw [(iterate_AddObserver o k S).1]
    simp
  · intro c h k ho hm hk
    obtain ⟨n, hn⟩ := step_mutates_dispatch c h hm
    refine ⟨n, hn, ?_⟩
    rw [hn, received_dispatch _ n o ho, hk]
  · intro v ho hnot
    have := received_dispatch ((S.AddObserver o).AddObserver o).observers
      { action := CollectionAction.ADD, item_indexes := [S.size] } o ho
    rw [hcount2 hnot] at this
    simpa [ObservableVector.PushBack, ObservableVector.AddObserver,
      ObservableVector.size] using this
  · intro c h ho hnot hm hS
    obtain ⟨n, hn⟩ := step_mutates_dispatch c h hm
    refine ⟨n, ?_⟩
    rw [hn, received_dispatch _ n o ho, hS, hcount2 hnot]
    rfl

/-- The observer of `main` registered a second time on `v` is handed the
notification of the next append twice. -/
theorem AddObserver_contract_witness :
    ((mainHeap 0).AddObserver 1).observers = [1, 1]
    ∧ received 1 ((((mainHeap 1).AddObserver 1).AddObserver 1).PushBack 4).2
        = [{ action := CollectionAction.ADD, item_indexes := [3] },
           { action := CollectionAction.ADD, item_indexes := [3] }] :=
  ⟨(AddObserver_contract (mainHeap 0) 1).1,
   (AddObserver_contract (mainHeap 1) 1).2.2.2.2.2.2.1 4 (by decide) (by decide)⟩

/-- C11: the scenario of `main`.  With the observer `O` registered on the empty
sequence, `PushBack(1)`, `PushBack(2)`, `PopBack()`, `Clear()` hand it
`{ADD,[0]}`, `{ADD,[1]}`, `{REMOVE,[1]}`, `{CLEAR,[]}`; the two appends made
after `RemoveObserver(O)` call nobody; after `AddObserver(O)` the copy
assignment from `{1,2,3}` and the move assignment from `{7,8,9}` hand it
`{ASSIGN,[]}` each.  These six calls are all the calls made, and the sequence
ends with the elements `7, 8, 9`. -/
theorem main_scenario (residue : List Nat) :
    received 1 (main residue).2 =
      [{ action := CollectionAction.ADD, item_indexes := [0] },
       { action := CollectionAction.ADD, item_indexes := [1] },
       { action := CollectionAction.REMOVE, item_indexes := [1] },
       { action := CollectionAction.CLEAR, item_indexes := [] },
       { action := CollectionAction.ASSIGN, item_indexes := [] },
       { action := CollectionAction.ASSIGN, item_indexes := [] }]
    ∧ recipients (main residue).2 = [1, 1, 1, 1, 1, 1]
    ∧ ((main residue).1 0).data_ = [7, 8, 9]
    ∧ (run [Call.addObserver 0 1, Call.pushBack 0 1, Call.pushBack 0 2, Call.popBack 0,
            Call.clear 0]
          (fun _ => (ObservableVector.ctorDefault : ObservableVector Nat))).2 =
        [{ observer := 1, notification := { action := CollectionAction.ADD, item_indexes := [0] } },
         { observer := 1, notification := { action := CollectionAction.ADD, item_indexes := [1] } },
         { observer := 1,
           notification := { action := CollectionAction.REMOVE, item_indexes := [1] } },
         { observer := 1, notification := { action := CollectionAction.CLEAR, item_indexes := [] } }]
    ∧ (run [Call.pushBack 0 3, Call.pushBack 0 4]
          (run [Call.addObserver 0 1, Call.pushBack 0 1, Call.pushBack 0 2, Call.popBack 0,
                Call.clear 0, Call.removeObserver 0 1]
            (fun _ => (ObservableVector.ctorDefault : ObservableVector Nat))).1).2 = []
    ∧ ((run [Call.pushBack 0 3, Call.pushBack 0 4]
          (run [Call.addObserver 0 1, Call.pushBack 0 1, Call.pushBack 0 2, Call.popBack 0,
                Call.clear 0, Call.removeObserver 0 1]
            (fun _ => (ObservableVector.ctorDefault : ObservableVector Nat))).1).1 0).data_
        = [3, 4] :=
  ⟨rfl, rfl, rfl, rfl, rfl, rfl⟩

/-- C14: `to_string` gives `"add"`, `"remove"`, `"clear"`, `"assign"` for `ADD`,
`REMOVE`, `CLEAR`, `ASSIGN`.  It has a value for each of the four kinds, that
value is never the empty string of the fallback `return ""` (which is reached
only by a value that is none of the four enumerators), and different kinds give
different strings. -/
theorem to_string_contract :
    to_string CollectionAction.ADD = "add"
    ∧ to_string CollectionAction.REMOVE = "remove"
    ∧ to_string CollectionAction.CLEAR = "clear"
    ∧ to_string CollectionAction.ASSIGN = "assign"
    ∧ (∀ a : CollectionAction, to_string a ≠ "")
    ∧ (∀ a b : CollectionAction, to_string a = to_string b → a = b)
    ∧ (∀ value : Nat, to_string_switch value = "" ↔
        ∀ a : CollectionAction, a.underlying ≠ value) := by
  refine ⟨rfl, rfl, rfl, rfl, ?_, ?_, ?_⟩
  · intro a
    cases a <;> simp [to_string, to_string_switch, CollectionAction.underlying]
  · intro a b
    cases a <;> cases b <;>
      simp [to_string, to_string_switch, CollectionAction.underlying]
  · intro value
    constructor
    · intro hv a ha
      subst ha
      cases a <;> simp [to_string_switch, CollectionAction.underlying] at hv
    · intro hv
      have h0 := hv CollectionAction.ADD
      have h1 := hv CollectionAction.REMOVE
      have h2 := hv CollectionAction.CLEAR
      have h3 := hv CollectionAction.ASSIGN
      simp only [CollectionAction.underlying] at h0 h1 h2 h3
      simp [to_string_switch, CollectionAction.underlying, Ne.symm h0, Ne.symm h1,
        Ne.symm h2, Ne.symm h3]

/-- C15: `size()` is the number of elements, and `empty()` is true exactly when
`size()` is `0`.  A call of either leaves the whole store (elements and observer
lists) as it was and calls no observer; so does any number of such calls, after
which `size()` and `empty()` still give the same values. -/
theorem size_empty_contract {T : Type} (S : ObservableVector T) :
    S.size = S.data_.length
    ∧ (S.empty = true ↔ S.size = 0)
    ∧ (∀ (h : Heap T) (a : Addr),
        step (Call.size a) h = (h, []) ∧ step (Call.empty a) h = (h, []))
    ∧ (∀ (h : Heap T) (cs : List (Call T)),
        (∀ c ∈ cs, (∃ a, c = Call.size a) ∨ (∃ a, c = Call.empty a)) →
        run cs h = (h, [])
        ∧ (∀ a, ((run cs h).1 a).size = (h a).size ∧ ((run cs h).1 a).empty = (h a).empty)) := by
  refine ⟨rfl, ?_, fun h a => ⟨rfl, rfl⟩, ?_⟩
  · simp [ObservableVector.empty, ObservableVector.size, List.isEmpty_iff, List.length_eq_zero]
  · intro h cs
    have hrun : (∀ c ∈ cs, (∃ a, c = Call.size a) ∨ (∃ a, c = Call.empty a)) →
        run cs h = (h, []) := by
      induction cs with
      | nil =>
        intro _
        rfl
      | cons c rest ih =>
        intro hcs
        have hrest := ih (fun c1 hc1 => hcs c1 (List.mem_cons_of_mem c hc1))
        have hstep : step c h = (h, []) := by
          rcases hcs c (List.mem_cons_self c rest) with ⟨a, rfl⟩ | ⟨a, rfl⟩ <;> rfl
        simp [run, hstep, hrest]
    intro hcs
    refine ⟨hrun hcs, ?_⟩
    intro a
    rw [hrun hcs]
    exact ⟨rfl, rfl⟩

/-- Three inspections in a row on `main`'s objects change nothing. -/
theorem size_empty_contract_witness :
    run [Call.size 0, Call.empty 0, Call.size 1] mainHeap = (mainHeap, []) :=
  ((size_empty_contract (mainHeap 0)).2.2.2 mainHeap [Call.size 0, Call.empty 0, Call.size 1]
    (by
      intro c hc
      simp only [List.mem_cons, List.mem_singleton, List.not_mem_nil, or_false] at hc
      rcases hc with rfl | rfl | rfl
      · exact Or.inl ⟨0, rfl⟩
      · exact Or.inr ⟨0, rfl⟩
      · exact Or.inl ⟨1, rfl⟩)).1

/-! ## When a notification is emitted, and with which indices -/

/-- C12, as stated, fails: `Clear()` on an empty sequence with one observer
calls the observer although the elements are the same before and after. -/
theorem emitted_iff_changed_counterexample :
    ¬ ((step (Call.clear 0)
          (fun _ => ({ data_ := [], observers := [1] } : ObservableVector Nat))).2 ≠ []
        ↔ ((step (Call.clear 0)
              (fun _ => ({ data_ := [], observers := [1] } : ObservableVector Nat))).1 0).data_
            ≠ ({ data_ := [], observers := [1] } : ObservableVector Nat).data_) := by
  decide

/-- C12, amended: on a sequence with at least one non-null observer, a public
operation emits a notification exactly when it is `PushBack`, `PopBack` (on a
non-empty sequence), `Clear`, or an assignment from another object, whether or
not the elements end up different from before.  Whenever the elements did
change a notification was emitted; `PushBack` and `PopBack` always change
them; `size`, `empty`, `AddObserver`, `RemoveObserver` and self-assignment
neither change them nor emit. -/
theorem emitted_iff_mutating_call {T : Type} (c : Call T) (h : Heap T)
    (hobs : ∃ o ∈ (h c.target).observers, o ≠ nullptr)
    (hpre : ∀ a, c = Call.popBack a → (h a).data_ ≠ []) :
    ((step c h).2 ≠ [] ↔ c.mutates h = true)
    ∧ (((step c h).1 c.target).data_ ≠ (h c.target).data_ → (step c h).2 ≠ [])
    ∧ (c.mutates h = false →
        (step c h).2 = [] ∧ ((step c h).1 c.target).data_ = (h c.target).data_)
    ∧ (∀ a v, c = Call.pushBack a v →
        ((step c h).1 c.target).data_ ≠ (h c.target).data_)
    ∧ (∀ a, c = Call.popBack a →
        ((step c h).1 c.target).data_ ≠ (h c.target).data_) := by
  obtain ⟨o, hmem, hnull⟩ := hobs
  have hne : ∀ n, dispatch (h c.target).observers n ≠ [] := by
    intro n hnil
    have hr := received_dispatch (h c.target).observers n o hnull
    rw [hnil] at hr
    have hpos : 0 < (h c.target).observers.count o := List.count_pos_iff.mpr hmem
    have hlen := congrArg List.length hr
    simp [received] at hlen
    omega
  have hmut : c.mutates h = true → (step c h).2 ≠ [] := by
    intro hm
    obtain ⟨n, hn⟩ := step_mutates_dispatch c h hm
    rw [hn]
    exact hne n
  have hsilent : c.mutates h = false →
      (step c h).2 = [] ∧ ((step c h).1 c.target).data_ = (h c.target).data_ := by
    intro hm
    cases c with
    | pushBack a v => simp [Call.mutates] at hm
    | popBack a =>
      have := hpre a rfl
      simp [Call.mutates, this] at hm
    | clear a => simp [Call.mutates] at hm
    | assignCopy a b =>
      have hab : a = b := by simpa [Call.mutates] using hm
      simp [step, operatorAssignCopy, hab]
    | assignMove a b residue =>
      have hab : a = b := by simpa [Call.mutates] using hm
      simp [step, operatorAssignMove, hab]
    | size a => exact ⟨rfl, rfl⟩
    | empty a => exact ⟨rfl, rfl⟩
    | addObserver a p => simp [step, Call.target, ObservableVector.AddObserver]
    | removeObserver a p => simp [step, Call.target, ObservableVector.RemoveObserver]
  refine ⟨⟨?_, hmut⟩, ?_, hsilent, ?_, ?_⟩
  · intro hemit
    by_contra hm
    exact hemit (hsilent (by simpa using hm)).1
  · intro hchg hemit
    have hm : c.mutates h = false := by
      by_contra hm1
      exact hmut (by simpa using hm1) hemit
    exact hchg (hsilent hm).2
  · intro a v hc
    subst hc
    intro heq
    have hlen := congrArg List.length heq
    simp [step, Call.target, ObservableVector.PushBack] at hlen
  · intro a hc
    subst hc
    have hnon := hpre a rfl
    intro heq
    have hlen := congrArg List.length heq
    have hpos : 0 < (h a).data_.length := List.length_pos.mpr hnon
    simp [step, Call.target, ObservableVector.PopBack] at hlen
    omega

/-- The copy assignment `v = v2` of `main` emits, `RemoveObserver` on `v` does
not. -/
theorem emitted_iff_mutating_call_witness :
    ((step (Call.assignCopy 0 1) mainHeap).2 ≠ []
      ↔ (Call.assignCopy 0 1 : Call Nat).mutates mainHeap = true)
    ∧ ((step (Call.removeObserver 0 1) mainHeap).2 ≠ []
      ↔ (Call.removeObserver 0 1 : Call Nat).mutates mainHeap = true) :=
  ⟨(emitted_iff_mutating_call (Call.assignCopy 0 1) mainHeap ⟨1, by decide, by decide⟩
      (by intro a hc; cases hc)).1,
   (emitted_iff_mutating_call (Call.removeObserver 0 1) mainHeap ⟨1, by decide, by decide⟩
      (by intro a hc; cases hc)).1⟩

/-- On a non-empty `data_` of `n` elements that starts at position `p`, the
member followed on the bounds does what `PopBack` does on the list: it returns,
`size()` is the length of the list that is left, and the deliveries are the
same, with or without precondition checks in the library. -/
theorem PopBackLib_nonempty {T : Type} (S : ObservableVector T) (assertions : Bool) (p : Nat)
    (hne : S.data_ ≠ []) (hrange : p + S.data_.length < SIZE_T_RANGE) :
    PopBackLib assertions { start := p, finish := p + S.data_.length } S.observers
      = some ({ start := p, finish := p + S.PopBack.1.data_.length }, S.PopBack.2)
    ∧ ({ start := p, finish := p + S.PopBack.1.data_.length } : VectorBounds).size
        = S.PopBack.1.size := by
  have hpos : 0 < S.data_.length := List.length_pos.mpr hne
  have hlen : S.PopBack.1.data_.length = S.data_.length - 1 := by
    simp [ObservableVector.PopBack]
  have hnotempty : ({ start := p, finish := p + S.data_.length } : VectorBounds).empty = false := by
    simpa [VectorBounds.empty] using hne
  have hfin : (p + S.data_.length + SIZE_T_RANGE - 1) % SIZE_T_RANGE
      = p + (S.data_.length - 1) := by
    have h1 : p + S.data_.length + SIZE_T_RANGE - 1
        = p + (S.data_.length - 1) + SIZE_T_RANGE := by omega
    rw [h1, Nat.add_mod_right, Nat.mod_eq_of_lt (by omega)]
  have hsize : ({ start := p, finish := p + (S.data_.length - 1) } : VectorBounds).size
      = S.data_.length - 1 := by
    simp only [VectorBounds.size]
    have h1 : p + (S.data_.length - 1) + SIZE_T_RANGE - p
        = (S.data_.length - 1) + SIZE_T_RANGE := by omega
    rw [h1, Nat.add_mod_right, Nat.mod_eq_of_lt (by omega)]
  constructor
  · simp only [PopBackLib, hnotempty, Bool.and_false, Bool.false_eq_true, if_false,
      VectorBounds.pop_back, hfin, hsize, hlen]
    simp [ObservableVector.PopBack]
  · rw [hlen, hsize]
    simp [ObservableVector.PopBack, ObservableVector.size]

/-- C16, as stated, fails: the `PopBack()` of `main`'s `v` when it holds `3, 4`
notifies the index `1`, and `size()` after the removal is `1`. -/
theorem notified_index_counterexample :
    (Call.popBack 0 : Call Nat).mutates mainHeap = true
    ∧ (step (Call.popBack 0) mainHeap).2 =
        [{ observer := 1,
           notification := { action := CollectionAction.REMOVE, item_indexes := [1] } }]
    ∧ ((step (Call.popBack 0) mainHeap).1 0).size = 1
    ∧ ¬ (∀ d ∈ (step (Call.popBack 0) mainHeap).2, ∀ i ∈ d.notification.item_indexes,
          i < ((step (Call.popBack 0) mainHeap).1 0).size) := by
  decide

/-- C16, amended: for every notification delivered by a call that changes the
elements, every entry of the index list is at most `size()` after the mutation.
For `PushBack` it is strictly less than `size()` after the mutation.  For
`PopBack` on a non-empty sequence it equals `size()` after the removal: an
index into the container as it was before the removal.  `Clear` and the
assignments deliver an empty index list. -/
theorem notified_index_bound {T : Type} (c : Call T) (h : Heap T)
    (hm : c.mutates h = true) :
    ∀ d ∈ (step c h).2,
      (∀ i ∈ d.notification.item_indexes, i ≤ ((step c h).1 c.target).size)
      ∧ (∀ a v, c = Call.pushBack a v →
          ∀ i ∈ d.notification.item_indexes, i < ((step c h).1 c.target).size)
      ∧ (∀ a, c = Call.popBack a →
          ∀ i ∈ d.notification.item_indexes,
            i = ((step c h).1 c.target).size ∧ i < (h c.target).size)
      ∧ ((∀ a v, c ≠ Call.pushBack a v) → (∀ a, c ≠ Call.popBack a) →
          d.notification.item_indexes = []) := by
  intro d hd
  cases c with
  | pushBack a v =>
    simp only [step, ObservableVector.PushBack, dispatch_eq_map, List.mem_map] at hd
    obtain ⟨o, _, rfl⟩ := hd
    simp [step, Call.target, ObservableVector.PushBack, ObservableVector.size]
  | popBack a =>
    have hnon : (h a).data_ ≠ [] := by simpa [Call.mutates] using hm
    have hpos : 0 < (h a).data_.length := List.length_pos.mpr hnon
    simp only [step, ObservableVector.PopBack, dispatch_eq_map, List.mem_map] at hd
    obtain ⟨o, _, rfl⟩ := hd
    simp [step, Call.target, ObservableVector.PopBack, ObservableVector.size]
    omega
  | clear a =>
    simp only [step, ObservableVector.Clear, dispatch_eq_map, List.mem_map] at hd
    obtain ⟨o, _, rfl⟩ := hd
    simp
  | assignCopy a b =>
    have hab : a ≠ b := by simpa [Call.mutates] using hm
    simp only [step, operatorAssignCopy, hab, dispatch_eq_map, List.mem_map, ne_eq,
      not_false_eq_true, if_true] at hd
    obtain ⟨o, _, rfl⟩ := hd
    simp
  | assignMove a b residue =>
    have hab : a ≠ b := by simpa [Call.mutates] using hm
    simp only [step, operatorAssignMove, hab, dispatch_eq_map, List.mem_map, ne_eq,
      not_false_eq_true, if_true] at hd
    obtain ⟨o, _, rfl⟩ := hd
    simp
  | size a => simp [Call.mutates] at hm
  | empty a => simp [Call.mutates] at hm
  | addObserver a o => simp [Call.mutates] at hm
  | removeObserver a o => simp [Call.mutates] at hm

/-- The append `v.PushBack(5)` on `main`'s `v` holding `3, 4`: the notified
index `2` is below the new size `3`. -/
theorem notified_index_bound_witness :
    2 < ((step (Call.pushBack 0 5) mainHeap).1 0).size :=
  (notified_index_bound (Call.pushBack 0 5) mainHeap (by decide)
    { observer := 1, notification := { action := CollectionAction.ADD, item_indexes := [2] } }
    (by decide)).2.1 0 5 rfl 2 (by simp)

/-! ## Round trip and frame -/

/-- C18: for every sequence `S` of size `n` and every value `v`, `PushBack(v)`
followed by `PopBack()` gives back `S`: the same elements and the same observer
list.  The deliveries are one `{ADD, [n]}` per non-null entry followed by one
`{REMOVE, [n]}` per non-null entry, so a non-null observer registered once is
handed exactly `{ADD, [n]}` then `{REMOVE, [n]}`: the same index `n` twice. -/
theorem PushBack_PopBack_roundtrip {T : Type} (S : ObservableVector T) (v : T) :
    (S.PushBack v).1.PopBack.1 = S
    ∧ (S.PushBack v).1.PopBack.1.data_ = S.data_
    ∧ (S.PushBack v).1.PopBack.1.observers = S.observers
    ∧ (S.PushBack v).2 ++ (S.PushBack v).1.PopBack.2 =
        dispatch S.observers { action := CollectionAction.ADD, item_indexes := [S.size] }
          ++ dispatch S.observers
              { action := CollectionAction.REMOVE, item_indexes := [S.size] }
    ∧ (∀ o, o ≠ nullptr →
        received o ((S.PushBack v).2 ++ (S.PushBack v).1.PopBack.2) =
          List.replicate (S.observers.count o)
              { action := CollectionAction.ADD, item_indexes := [S.size] }
            ++ List.replicate (S.observers.count o)
              { action := CollectionAction.REMOVE, item_indexes := [S.size] })
    ∧ (∀ o, o ≠ nullptr → S.observers.count o = 1 →
        received o ((S.PushBack v).2 ++ (S.PushBack v).1.PopBack.2) =
          [{ action := CollectionAction.ADD, item_indexes := [S.size] },
           { action := CollectionAction.REMOVE, item_indexes := [S.size] }])
    ∧ (∀ (h : Heap T) (a : Addr), h a = S →
        (run [Call.pushBack a v, Call.popBack a] h).1 = h
        ∧ (run [Call.pushBack a v, Call.popBack a] h).2 =
            (S.PushBack v).2 ++ (S.PushBack v).1.PopBack.2) := by
  have hdata : (S.PushBack v).1.PopBack.1.data_ = S.data_ := by
    simp [ObservableVector.PushBack, ObservableVector.PopBack]
  have hback : (S.PushBack v).1.PopBack.1 = S := by
    cases S with
    | mk d obs => simp [ObservableVector.PushBack, ObservableVector.PopBack]
  have htr : (S.PushBack v).2 ++ (S.PushBack v).1.PopBack.2 =
      dispatch S.observers { action := CollectionAction.ADD, item_indexes := [S.size] }
        ++ dispatch S.observers
            { action := CollectionAction.REMOVE, item_indexes := [S.size] } := by
    simp [ObservableVector.PushBack, ObservableVector.PopBack, ObservableVector.size]
  have hrec : ∀ o, o ≠ nullptr →
      received o ((S.PushBack v).2 ++ (S.PushBack v).1.PopBack.2) =
        List.replicate (S.observers.count o)
            { action := CollectionAction.ADD, item_indexes := [S.size] }
          ++ List.replicate (S.observers.count o)
            { action := CollectionAction.REMOVE, item_indexes := [S.size] } := by
    intro o ho
    rw [htr, received_append, received_dispatch _ _ o ho, received_dispatch _ _ o ho]
  refine ⟨hback, hdata, rfl, htr, hrec, ?_, ?_⟩
  · intro o ho h1
    rw [hrec o ho, h1]
    rfl
  · intro h a hS
    subst hS
    constructor
    · funext x
      by_cases hx : x = a
      · subst hx
        simp [run, step, hback]
      · simp [run, step, Function.update_noteq hx]
    · simp [run, step]

/-- The round trip on `main`'s `v` holding `3, 4`: the observer is handed
`{ADD, [2]}` and then `{REMOVE, [2]}`. -/
theorem PushBack_PopBack_roundtrip_witness :
    ((mainHeap 0).PushBack 9).1.PopBack.1.data_ = (mainHeap 0).data_
    ∧ received 1 (((mainHeap 0).PushBack 9).2 ++ ((mainHeap 0).PushBack 9).1.PopBack.2) =
        [{ action := CollectionAction.ADD, item_indexes := [(mainHeap 0).size] },
         { action := CollectionAction.REMOVE, item_indexes := [(mainHeap 0).size] }] :=
  ⟨(PushBack_PopBack_roundtrip (mainHeap 0) 9).2.1,
   (PushBack_PopBack_roundtrip (mainHeap 0) 9).2.2.2.2.2.1 1 (by decide) (by decide)⟩

/-- C20: a call that changes the elements (`PushBack`, `PopBack` on a non-empty
sequence, `Clear`, copy or move assignment from another object) leaves the
observer list of its target, and of every other object, as it was.  After
`S = S2`, in the copy form or the move form, `S` has its own observer list, `S2`
has its own observer list, the deliveries are those of the loop over the
observer list of `S`, and an observer that is registered on `S2` but not on `S`
is not called. -/
theorem observers_frame {T : Type} (c : Call T) (h : Heap T) (hm : c.mutates h = true) :
    ((step c h).1 c.target).observers = (h c.target).observers
    ∧ (∀ x : Addr, ((step c h).1 x).observers = (h x).observers)
    ∧ (∀ (a b : Addr), a ≠ b →
        ((operatorAssignCopy a b h).1 a).observers = (h a).observers
        ∧ ((operatorAssignCopy a b h).1 b).observers = (h b).observers
        ∧ (operatorAssignCopy a b h).2 =
            dispatch (h a).observers { action := CollectionAction.ASSIGN, item_indexes := [] }
        ∧ (∀ o, o ∈ (h b).observers → o ∉ (h a).observers →
            received o (operatorAssignCopy a b h).2 = []))
    ∧ (∀ (a b : Addr) (residue : List T), a ≠ b →
        ((operatorAssignMove a b residue h).1 a).observers = (h a).observers
        ∧ ((operatorAssignMove a b residue h).1 b).observers = (h b).observers
        ∧ (operatorAssignMove a b residue h).2 =
            dispatch (h a).observers { action := CollectionAction.ASSIGN, item_indexes := [] }
        ∧ (∀ o, o ∈ (h b).observers → o ∉ (h a).observers →
            received o (operatorAssignMove a b residue h).2 = [])) := by
  have hcopy : ∀ (a b x : Addr), a ≠ b →
      ((operatorAssignCopy a b h).1 x).observers = (h x).observers := by
    intro a b x hab
    by_cases hx : x = a
    · subst hx
      simp [operatorAssignCopy, hab]
    · simp [operatorAssignCopy, hab, Function.update_noteq hx]
  have hmove : ∀ (a b x : Addr) (residue : List T), a ≠ b →
      ((operatorAssignMove a b residue h).1 x).observers = (h x).observers := by
    intro a b x residue hab
    by_cases hx : x = a
    · subst hx
      simp [operatorAssignMove, hab]
    · by_cases hxb : x = b
      · subst hxb
        simp [operatorAssignMove, hab, Function.update_noteq hx]
      · simp [operatorAssignMove, hab, Function.update_noteq hx, Function.update_noteq hxb]
  have hall : ∀ x : Addr, ((step c h).1 x).observers = (h x).observers := by
    intro x
    cases c with
    | pushBack a v =>
      by_cases hx : x = a
      · subst hx
        simp [step, ObservableVector.PushBack]
      · simp [step, Function.update_noteq hx]
    | popBack a =>
      by_cases hx : x = a
      · subst hx
        simp [step, ObservableVector.PopBack]
      · simp [step, Function.update_noteq hx]
    | clear a =>
      by_cases hx : x = a
      · subst hx
        simp [step, ObservableVector.Clear]
      · simp [step, Function.update_noteq hx]
    | assignCopy a b =>
      have hab : a ≠ b := by simpa [Call.mutates] using hm
      exact hcopy a b x hab
    | assignMove a b residue =>
      have hab : a ≠ b := by simpa [Call.mutates] using hm
      exact hmove a b x residue hab
    | size a => simp [Call.mutates] at hm
    | empty a => simp [Call.mutates] at hm
    | addObserver a o => simp [Call.mutates] at hm
    | removeObserver a o => simp [Call.mutates] at hm
  refine ⟨hall c.target, hall, ?_, ?_⟩
  · intro a b hab
    have htr : (operatorAssignCopy a b h).2 =
        dispatch (h a).observers
          { action := CollectionAction.ASSIGN, item_indexes := [] } := by
      simp [operatorAssignCopy, hab]
    refine ⟨hcopy a b a hab, hcopy a b b hab, htr, ?_⟩
    intro o _ hnot
    rw [htr]
    exact received_of_not_mem _ _ o hnot
  · intro a b residue hab
    have htr : (operatorAssignMove a b residue h).2 =
        dispatch (h a).observers
          { action := CollectionAction.ASSIGN, item_indexes := [] } := by
      simp [operatorAssignMove, hab]
    refine ⟨hmove a b a residue hab, hmove a b b residue hab, htr, ?_⟩
    intro o _ hnot
    rw [htr]
    exact received_of_not_mem _ _ o hnot

/-- The copy assignment `v = v2` of `main` leaves the observer lists of `v` and
of `v2` as they were. -/
theorem observers_frame_witness :
    ((step (Call.assignCopy 0 1) mainHeap).1 0).observers = (mainHeap 0).observers
    ∧ ((step (Call.assignCopy 0 1) mainHeap).1 1).observers = (mainHeap 1).observers :=
  ⟨(observers_frame (Call.assignCopy 0 1) mainHeap (by decide)).1,
   (observers_frame (Call.assignCopy 0 1) mainHeap (by decide)).2.1 1⟩

/-! ## The storage of the observer list -/

/-- Reading the slot right behind a block `A` gives the entry stored there. -/
theorem getD_mid (A R : List ObserverPtr) (c : ObserverPtr) :
    (A ++ c :: R).getD A.length nullptr = c := by
  induction A with
  | nil => rfl
  | cons a A ih => simpa [List.getD_cons_succ] using ih

/-- `std::find` stops at the first slot of `Q` that holds `value`, or behind `Q`. -/
theorem std_find_spec (value : ObserverPtr) (D : List ObserverPtr) :
    ∀ (Q P : List ObserverPtr) (fuel : Nat), Q.length ≤ fuel →
      std_find (P ++ (Q ++ D)) value fuel P.length (P.length + Q.length)
        = P.length + (Q.takeWhile (fun p => p != value)).length := by
  intro Q
  induction Q with
  | nil =>
    intro P fuel _
    cases fuel <;> simp [std_find]
  | cons q Q ih =>
    intro P fuel hf
    cases fuel with
    | zero => simp at hf
    | succ f =>
      have hq : (P ++ (q :: Q ++ D)).getD P.length nullptr = q := getD_mid P (Q ++ D) q
      have hne : P.length ≠ P.length + (q :: Q).length := by simp
      rw [std_find, if_pos hne, hq]
      by_cases hqv : q = value
      · simp [hqv]
      · have hrec := ih (P ++ [q]) f (by simpa using hf)
        simp only [List.length_append, List.length_singleton, List.append_assoc,
          List.singleton_append] at hrec
        have hlast : P.length + (q :: Q).length = P.length + 1 + Q.length := by
          simp; omega
        rw [if_neg hqv, hlast]
        simp only [List.cons_append]
        rw [hrec]
        simp [List.takeWhile_cons, hqv]
        omega

/-- The loop of `std::remove`: with the kept entries `A` in front, a zone `Z`
between the write and the read position, and `C` still to be read, it ends with
`A` followed by the entries of `C` that differ from `value` in front. -/
theorem std_remove_loop_spec (value : ObserverPtr) (D : List ObserverPtr) :
    ∀ (C A Z : List ObserverPtr) (fuel i : Nat), Z ≠ [] → i + 1 = A.length + Z.length →
      C.length ≤ fuel →
      (std_remove_loop value (A.length + Z.length + C.length) fuel
          (A ++ (Z ++ (C ++ D))) i A.length).2
        = A.length + (C.filter (fun p => p != value)).length
      ∧ (std_remove_loop value (A.length + Z.length + C.length) fuel
            (A ++ (Z ++ (C ++ D))) i A.length).1.take
          (A.length + (C.filter (fun p => p != value)).length)
        = A ++ C.filter (fun p => p != value) := by
  intro C
  induction C with
  | nil =>
    intro A Z fuel i _ hi _
    have hlast : ¬ (i + 1 ≠ A.length + Z.length + ([] : List ObserverPtr).length) := by
      simp [hi]
    cases fuel with
    | zero => simp [std_remove_loop]
    | succ f =>
      rw [std_remove_loop, if_neg hlast]
      simp
  | cons c C ih =>
    intro A Z fuel i hZ hi hf
    cases fuel with
    | zero => simp at hf
    | succ f =>
      have hlast : i + 1 ≠ A.length + Z.length + (c :: C).length := by
        simp
        omega
      have hread : (A ++ (Z ++ (c :: C ++ D))).getD (i + 1) nullptr = c := by
        have := getD_mid (A ++ Z) (C ++ D) c
        simpa [hi] using this
      rw [std_remove_loop, if_pos hlast, hread]
      by_cases hcv : c = value
      · have hrec := ih A (Z ++ [c]) f (i + 1) (by simp) (by simp; omega)
          (by simpa using hf)
        have hlen : A.length + Z.length + (c :: C).length
            = A.length + (Z ++ [c]).length + C.length := by
          simp; omega
        have hslots : A ++ (Z ++ (c :: C ++ D)) = A ++ ((Z ++ [c]) ++ (C ++ D)) := by simp
        rw [if_neg (by simpa using hcv), hlen, hslots]
        simpa [List.filter_cons, hcv] using hrec
      · obtain ⟨z, Z1, rfl⟩ := List.exists_cons_of_ne_nil hZ
        have hset : (A ++ (z :: Z1 ++ (c :: C ++ D))).set A.length c
            = (A ++ [c]) ++ ((Z1 ++ [c]) ++ (C ++ D)) := by
          simp
        have hrec := ih (A ++ [c]) (Z1 ++ [c]) f (i + 1) (by simp)
          (by simp at hi ⊢; omega) (by simpa using hf)
        have hlen : A.length + (z :: Z1).length + (c :: C).length
            = (A ++ [c]).length + (Z1 ++ [c]).length + C.length := by
          simp; omega
        have hA : A.length + 1 = (A ++ [c]).length := by simp
        rw [if_pos hcv, hset, hlen, hA]
        have hfil : (c :: C).filter (fun p => p != value)
            = c :: C.filter (fun p => p != value) := by
          simp [List.filter_cons, hcv]
        rw [hfil]
        refine ⟨?_, ?_⟩
        · rw [hrec.1]
          simp
          omega
        · have h2 := hrec.2
          have hidx : A.length + (c :: C.filter (fun p => p != value)).length
              = (A ++ [c]).length + (C.filter (fun p => p != value)).length := by
            simp; omega
          rw [hidx, h2]
          simp

/-- `std::remove` over the whole vector moves the entries that differ from
`value` to the front, in their order, and returns the position behind them. -/
theorem std_remove_spec (xs D : List ObserverPtr) (value : ObserverPtr) :
    (std_remove (xs ++ D) 0 xs.length value).2 = (xs.filter (fun p => p != value)).length
    ∧ (std_remove (xs ++ D) 0 xs.length value).1.take
        (xs.filter (fun p => p != value)).length
      = xs.filter (fun p => p != value) := by
  have hfind := std_find_spec value D xs [] xs.length (le_refl _)
  simp only [List.nil_append, List.length_nil, Nat.zero_add] at hfind
  have hsplit := List.takeWhile_append_dropWhile (fun p => p != value) xs
  have hkeep : (xs.takeWhile (fun p => p != value)).filter (fun p => p != value)
      = xs.takeWhile (fun p => p != value) := by
    rw [List.filter_eq_self]
    intro a ha
    exact List.mem_takeWhile_imp (p := fun p => p != value) ha
  cases hdrop : xs.dropWhile (fun p => p != value) with
  | nil =>
    have hall : xs.takeWhile (fun p => p != value) = xs := by
      rw [hdrop, List.append_nil] at hsplit
      exact hsplit
    have hfilter : xs.filter (fun p => p != value) = xs := by
      rw [← hall, hkeep]
    rw [hall] at hfind
    simp only [std_remove, Nat.sub_zero, hfind, ne_eq, not_true_eq_false, if_false, hfilter]
    simp
  | cons d rest =>
    have hd : d = value := by
      have := List.head_dropWhile_not (fun p => p != value) xs
        (by rw [hdrop]; simp)
      simpa [hdrop] using this
    subst hd
    rw [hdrop] at hsplit
    set A := xs.takeWhile (fun p => p != d) with hA
    have hxs : xs = A ++ (d :: rest) := hsplit.symm
    have hlen : xs.length = A.length + ([d] : List ObserverPtr).length + rest.length := by
      rw [hxs]
      simp
      omega
    have hne : A.length ≠ xs.length := by
      rw [hlen]
      simp
      omega
    have hfilter : xs.filter (fun p => p != d) = A ++ rest.filter (fun p => p != d) := by
      rw [hxs, List.filter_append, hkeep]
      simp [List.filter_cons]
    have hloop := std_remove_loop_spec d D rest A [d] (xs.length - A.length) A.length
      (by simp) (by simp) (by rw [hlen]; simp; omega)
    have hslots : xs ++ D = A ++ ([d] ++ (rest ++ D)) := by
      rw [hxs]
      simp
    simp only [std_remove, Nat.sub_zero, hfind, ne_eq, hne, not_false_eq_true, if_true]
    rw [hslots, hlen, hfilter]
    rw [hlen] at hloop
    simpa using hloop

/-- The erase-remove idiom on the storage leaves exactly the entries that differ
from `o`, in their order. -/
theorem ObserverBuffer.RemoveObserver_toList (b : ObserverBuffer) (o : ObserverPtr)
    (hb : b.finish ≤ b.slots.length) :
    (b.RemoveObserver o).toList = b.toList.filter (fun p => p != o) := by
  have hlen : (b.slots.take b.finish).length = b.finish := by
    simp [List.length_take, hb]
  have hslots : b.slots = b.slots.take b.finish ++ b.slots.drop b.finish :=
    (List.take_append_drop b.finish b.slots).symm
  have hspec := std_remove_spec (b.slots.take b.finish) (b.slots.drop b.finish) o
  rw [← hslots, hlen] at hspec
  simp only [ObserverBuffer.RemoveObserver, ObserverBuffer.toList]
  rw [hspec.1]
  exact hspec.2

/-- While no callback changes the observer list, the loop over the storage
makes the calls of `dispatch`, leaves the storage alone and reads no slot at or
behind `end()`. -/
theorem dispatchWalk_passive (removesItself : ObserverPtr → Bool)
    (n : CollectionChangeNotification) (D : List ObserverPtr) (finish : Nat) :
    ∀ (Q P : List ObserverPtr) (fuel : Nat), Q.length ≤ fuel →
      P.length + Q.length ≤ finish →
      (∀ o ∈ Q, o ≠ nullptr → removesItself o = false) →
      dispatchWalk removesItself n fuel { slots := P ++ (Q ++ D), finish := finish }
          P.length (P.length + Q.length)
        = { buffer := { slots := P ++ (Q ++ D), finish := finish },
            deliveries := dispatch Q n,
            strayReads := [] } := by
  intro Q
  induction Q with
  | nil =>
    intro P fuel _ _ _
    cases fuel <;> simp [dispatchWalk, dispatch]
  | cons q Q ih =>
    intro P fuel hf hfin hpassive
    cases fuel with
    | zero => simp at hf
    | succ f =>
      have hq : (P ++ (q :: Q ++ D)).getD P.length nullptr = q := getD_mid P (Q ++ D) q
      have hne : P.length ≠ P.length + (q :: Q).length := by simp
      have hin : P.length < finish := by
        simp at hfin
        omega
      have hrec := ih (P ++ [q]) f (by simpa using hf) (by simp at hfin ⊢; omega)
        (fun o ho => hpassive o (List.mem_cons_of_mem q ho))
      have hlast : P.length + (q :: Q).length = (P ++ [q]).length + Q.length := by
        simp; omega
      have hslots : P ++ (q :: Q ++ D) = (P ++ [q]) ++ (Q ++ D) := by simp
      have hit : P.length + 1 = (P ++ [q]).length := by simp
      rw [dispatchWalk, if_pos hne]
      simp only [hq, hin, if_true]
      by_cases hqn : q = nullptr
      · rw [if_neg (by simpa using hqn), hlast, hslots, hit, hrec]
        simp [dispatch, hqn]
      · have hpq := hpassive q (List.mem_cons_self q Q) hqn
        rw [if_pos hqn, hpq, hlast, hslots, hit]
        simp only [Bool.false_eq_true, if_false]
        rw [hrec]
        simp [dispatch, hqn]

/-! ## `RemoveObserver` as a filter, and removal while the loop runs -/

/-- C19: `RemoveObserver(O)`, carried out on the storage as
`erase(std::remove(begin, end, O), end)`, leaves exactly the observer list with
the entries equal to `O` filtered out: every other entry (null entries and
repeated entries included) is kept, as often as before and in the same order.
It changes nothing when `O` is not registered, a second `RemoveObserver(O)`
changes nothing, and `AddObserver(O)` followed by `RemoveObserver(O)` gives back
the sequence when `O` was not registered before. -/
theorem RemoveObserver_filter {T : Type} (S : ObservableVector T) (o : ObserverPtr) :
    ((ObserverBuffer.ofList S.observers).RemoveObserver o).toList
        = S.observers.filter (fun p => p != o)
    ∧ (S.RemoveObserver o).observers
        = ((ObserverBuffer.ofList S.observers).RemoveObserver o).toList
    ∧ (S.RemoveObserver o).observers = S.observers.filter (fun p => p != o)
    ∧ (∀ p, p ∈ (S.RemoveObserver o).observers ↔ p ∈ S.observers ∧ p ≠ o)
    ∧ (∀ p, p ≠ o → (S.RemoveObserver o).observers.count p = S.observers.count p)
    ∧ (S.RemoveObserver o).observers.Sublist S.observers
    ∧ (S.RemoveObserver o).data_ = S.data_
    ∧ (o ∉ S.observers → S.RemoveObserver o = S)
    ∧ (S.RemoveObserver o).RemoveObserver o = S.RemoveObserver o
    ∧ (o ∉ S.observers → (S.AddObserver o).RemoveObserver o = S) := by
  have hbuf : ((ObserverBuffer.ofList S.observers).RemoveObserver o).toList
      = S.observers.filter (fun p => p != o) := by
    have := ObserverBuffer.RemoveObserver_toList (ObserverBuffer.ofList S.observers) o
      (by simp [ObserverBuffer.ofList])
    simpa [ObserverBuffer.ofList, ObserverBuffer.toList] using this
  have hid : ∀ xs : List ObserverPtr, o ∉ xs → xs.filter (fun p => p != o) = xs := by
    intro xs hnot
    rw [List.filter_eq_self]
    intro a ha
    have : a ≠ o := fun e => hnot (e ▸ ha)
    simpa using this
  refine ⟨hbuf, ?_, rfl, ?_, ?_, ?_, rfl, ?_, ?_, ?_⟩
  · rw [hbuf]
    rfl
  · intro p
    simp [ObservableVector.RemoveObserver, List.mem_filter]
  · intro p hp
    simp only [ObservableVector.RemoveObserver]
    rw [List.count_filter]
    simpa using hp
  · exact List.filter_sublist S.observers
  · intro hnot
    cases S with
    | mk d obs => simp [ObservableVector.RemoveObserver, hid obs hnot]
  · simp [ObservableVector.RemoveObserver, List.filter_filter]
  · intro hnot
    cases S with
    | mk d obs =>
      simp [ObservableVector.RemoveObserver, ObservableVector.AddObserver,
        List.filter_append, hid obs hnot]

/-- Removing observer `1` from the list `1, 0, 2, 1, 2` on the storage leaves
`0, 2, 2`; registering `7` on `main`'s `v` and removing it gives back `v`. -/
theorem RemoveObserver_filter_witness :
    ((ObserverBuffer.ofList [1, 0, 2, 1, 2]).RemoveObserver 1).toList
        = ([1, 0, 2, 1, 2] : List ObserverPtr).filter (fun p => p != 1)
    ∧ ((mainHeap 0).AddObserver 7).RemoveObserver 7 = mainHeap 0 :=
  ⟨(RemoveObserver_filter
      ({ data_ := [], observers := [1, 0, 2, 1, 2] } : ObservableVector Nat) 1).1,
   (RemoveObserver_filter (mainHeap 0) 7).2.2.2.2.2.2.2.2.2 (by decide)⟩

/-- C17, as stated, fails: with the observer list `1, 2, 3` and observer `1`
calling `RemoveObserver` on itself when it is notified, `PushBack` never calls
observer `2`, calls observer `3` twice, and the second of these calls comes
from a read of slot `2`, which lies behind the end of the list by then. -/
theorem self_removal_counterexample :
    received 2
        (({ data_ := [], observers := [1, 2, 3] } : ObservableVector Nat).PushBackWalk
          (fun o => o == 1) 7).2.deliveries = []
    ∧ received 3
        (({ data_ := [], observers := [1, 2, 3] } : ObservableVector Nat).PushBackWalk
          (fun o => o == 1) 7).2.deliveries
        = [{ action := CollectionAction.ADD, item_indexes := [0] },
           { action := CollectionAction.ADD, item_indexes := [0] }]
    ∧ (({ data_ := [], observers := [1, 2, 3] } : ObservableVector Nat).PushBackWalk
          (fun o => o == 1) 7).2.strayReads = [2]
    ∧ (({ data_ := [], observers := [1, 2, 3] } : ObservableVector Nat).PushBackWalk
          (fun o => o == 1) 7).1.observers = [2, 3] := by
  decide

/-- C17, amended: the dispatch loop walks the observer list itself, with the
iterators taken before the first callback.  As long as no registered observer
changes the observer list during its callback, the loop of every mutating
member calls each non-null entry exactly once, in order, reads no slot at or
behind the end of the list and leaves the list as it was; for `PushBack` the
result is that of `PushBack` with callbacks that do not touch the sequence. -/
theorem dispatch_with_passive_observers {T : Type} (removesItself : ObserverPtr → Bool)
    (S : ObservableVector T) (v : T)
    (hpassive : ∀ o ∈ S.observers, o ≠ nullptr → removesItself o = false) :
    (∀ n : CollectionChangeNotification,
        dispatchWalk removesItself n S.observers.length (ObserverBuffer.ofList S.observers)
            0 S.observers.length
          = { buffer := ObserverBuffer.ofList S.observers,
              deliveries := dispatch S.observers n,
              strayReads := [] })
    ∧ (S.PushBackWalk removesItself v).1 = (S.PushBack v).1
    ∧ (S.PushBackWalk removesItself v).2.deliveries = (S.PushBack v).2
    ∧ (S.PushBackWalk removesItself v).2.strayReads = []
    ∧ (∀ o, o ≠ nullptr →
        received o (S.PushBackWalk removesItself v).2.deliveries =
          List.replicate (S.observers.count o)
            { action := CollectionAction.ADD, item_indexes := [S.size] }) := by
  have hwalk : ∀ n : CollectionChangeNotification,
      dispatchWalk removesItself n S.observers.length (ObserverBuffer.ofList S.observers)
          0 S.observers.length
        = { buffer := ObserverBuffer.ofList S.observers,
            deliveries := dispatch S.observers n,
            strayReads := [] } := by
    intro n
    have := dispatchWalk_passive removesItself n [] S.observers.length S.observers []
      S.observers.length (le_refl _) (by simp) hpassive
    simpa [ObserverBuffer.ofList] using this
  have hpush : (S.PushBackWalk removesItself v).2 =
      { buffer := ObserverBuffer.ofList S.observers,
        deliveries := dispatch S.observers
          { action := CollectionAction.ADD, item_indexes := [(S.data_ ++ [v]).length - 1] },
        strayReads := [] } := by
    simp only [ObservableVector.PushBackWalk]
    exact hwalk _
  refine ⟨hwalk, ?_, ?_, ?_, ?_⟩
  · have hobs : (S.PushBackWalk removesItself v).1.observers = S.observers := by
      have : (S.PushBackWalk removesItself v).1.observers
          = (S.PushBackWalk removesItself v).2.buffer.toList := rfl
      rw [this, hpush]
      simp [ObserverBuffer.ofList, ObserverBuffer.toList]
    have hdata : (S.PushBackWalk removesItself v).1.data_ = S.data_ ++ [v] := rfl
    cases hS : (S.PushBackWalk removesItself v).1 with
    | mk d obs =>
      rw [hS] at hobs hdata
      simp only at hobs hdata
      simp [ObservableVector.PushBack, hobs, hdata]
  · rw [hpush]
    rfl
  · rw [hpush]
  · intro o ho
    rw [hpush]
    simpa [ObservableVector.size] using
      received_dispatch S.observers
        { action := CollectionAction.ADD, item_indexes := [S.data_.length] } o ho

/-- The observer list `1, 0, 2` with no observer that removes itself: the walk
makes the calls of `PushBack` and reads no slot behind the end. -/
theorem dispatch_with_passive_observers_witness :
    (({ data_ := [5], observers := [1, 0, 2] } : ObservableVector Nat).PushBackWalk
        (fun _ => false) 6).2.deliveries
      = (({ data_ := [5], observers := [1, 0, 2] } : ObservableVector Nat).PushBack 6).2
    ∧ (({ data_ := [5], observers := [1, 0, 2] } : ObservableVector Nat).PushBackWalk
        (fun _ => false) 6).2.strayReads = [] :=
  ⟨(dispatch_with_passive_observers (fun _ => false)
      ({ data_ := [5], observers := [1, 0, 2] } : ObservableVector Nat) 6
      (fun _ _ _ => rfl)).2.2.1,
   (dispatch_with_passive_observers (fun _ => false)
      ({ data_ := [5], observers := [1, 0, 2] } : ObservableVector Nat) 6
      (fun _ _ _ => rfl)).2.2.2.1⟩

end ObservableVectorModel
